import Mathlib

set_option autoImplicit false

namespace ComfySpec

/-! # Data model

Shallow embedding of the dynamic (Python/YAML) values manipulated by the
repository: `src/utils/dict_utils.py`, `src/utils/random_utils.py`,
`src/utils/type_utils.py`, `src/utils/file_handler.py` and the selection /
resolution engine in `src/main.py`. -/

/-- Python-like dynamic value, as used by the repository's YAML-driven
configuration and its `dict_utils` / `random_utils` helpers.
Python `int` is modelled by `ℤ`, Python `float` by `ℚ` (every float
operation the claims touch is order comparison, `max`/`min`, addition and
multiplication, which `ℚ` represents faithfully at the level of the
properties stated below).  Dict keys are strings, as in the repository's
configuration dictionaries; a dict is an insertion-ordered association
list with unique keys, exactly Python's `dict` iteration model. -/
inductive PyVal where
  | none
  | bool (b : Bool)
  | int (n : ℤ)
  | float (q : ℚ)
  | str (s : String)
  | list (xs : List PyVal)
  | dict (m : List (String × PyVal))
  deriving Repr, Inhabited

/-- Python truthiness (`bool(v)`): `None`, `False`, `0`, `0.0`, `""`,
`[]` and `{}` are falsy, everything else truthy. -/
def truthy : PyVal → Bool
  | .none => false
  | .bool b => b
  | .int n => n != 0
  | .float q => q != 0
  | .str s => !(s == "")
  | .list xs => !xs.isEmpty
  | .dict m => !m.isEmpty

mutual

/-- Structural equality on `PyVal`, the Boolean test Python's `==` /
dict-key hashing performs on these values.  (Python's numeric
cross-type equality `1 == 1.0` is not needed by any claim, every
equality the embedded code performs compares values of one shape.) -/
def pyEq : PyVal → PyVal → Bool
  | .none, .none => true
  | .bool a, .bool b => a == b
  | .int a, .int b => a == b
  | .float a, .float b => a == b
  | .str a, .str b => a == b
  | .list xs, .list ys => pyEqList xs ys
  | .dict xs, .dict ys => pyEqDict xs ys
  | _, _ => false

/-- Elementwise `pyEq` on lists. -/
def pyEqList : List PyVal → List PyVal → Bool
  | [], [] => true
  | x :: xs, y :: ys => pyEq x y && pyEqList xs ys
  | _, _ => false

/-- Entrywise `pyEq` on dict entry lists. -/
def pyEqDict : List (String × PyVal) → List (String × PyVal) → Bool
  | [], [] => true
  | (k, v) :: xs, (l, w) :: ys => k == l && pyEq v w && pyEqDict xs ys
  | _, _ => false

end

/-- Exceptions the embedded Python code can raise, named after the
Python exception classes.  The spec's `InvalidRange` / `InvalidWeight`
taxonomy names the explicitly raised `ValueError`s / `TypeError`s of
`random_utils.py`. -/
inductive Err where
  | typeError
  | valueError
  | indexError
  | attributeError
  deriving DecidableEq, Repr

/-- First-match key lookup in a dict entry list — Python `d.get(k)` /
`d[k]` on a dict whose entries are listed in insertion order. -/
def lookupKey {α : Type} : List (String × α) → String → Option α
  | [], _ => Option.none
  | (k, v) :: m, key => if k == key then some v else lookupKey m key

/-- Python dict assignment `d[k] = v`: replaces the value in place if the
key is present (keeping its position), otherwise appends a new entry. -/
def insertKey {α : Type} : List (String × α) → String → α → List (String × α)
  | [], key, v => [(key, v)]
  | (k, w) :: m, key, v =>
      if k == key then (k, v) :: m else (k, w) :: insertKey m key v

/-- Python dict `d.pop(k, None)`: removes the first entry with the key. -/
def eraseKey {α : Type} : List (String × α) → String → List (String × α)
  | [], _ => []
  | (k, w) :: m, key => if k == key then m else (k, w) :: eraseKey m key

/-- `v` is a Python dict. -/
def PyVal.isDict : PyVal → Bool
  | .dict _ => true
  | _ => false

/-- `v` is a Python list (a collection for `random_min_max`). -/
def PyVal.isList : PyVal → Bool
  | .list _ => true
  | _ => false

/-! ## `src/utils/dict_utils.py` -/

/-- `dict_utils.get_nested(d, *keys, default)`.
The loop walks `keys` dropping the last one: `current = current.get(key,
default)` substitutes the caller's default for a missing key, and bails
out with the default as soon as `current` is not a dict; finally
`keys[-1] in current` is tested and the value (or default) returned.
`Except` records the exceptions Python could raise.  When the walked
value is a dict every `.get` / `in` is on a dict and nothing raises; the
error branches model `.get` on a non-dict root (`AttributeError`) and
final indexing of a non-dict root (`TypeError`), which a dict root never
reaches. -/
def get_nested (d : PyVal) (keys : List String) (default : PyVal) :
    Except Err PyVal :=
  match keys with
  | [] => .ok default
  | [last] =>
      match d with
      | .dict m => .ok ((lookupKey m last).getD default)
      | _ => .error .typeError
  | key :: rest =>
      match d with
      | .dict m =>
          match (lookupKey m key).getD default with
          | .dict m' => get_nested (.dict m') rest default
          | _ => .ok default
      | _ => .error .attributeError

/-- The pure value `get_nested` computes on a dict root (the only way
`src/main.py` ever calls it: the root is always `self.type_dics`, a
dict).  `get_nested_eq_pure` below proves the agreement. -/
def getNestedP (m : List (String × PyVal)) (keys : List String)
    (default : PyVal) : PyVal :=
  match keys with
  | [] => default
  | [last] => (lookupKey m last).getD default
  | key :: rest =>
      match (lookupKey m key).getD default with
      | .dict m' => getNestedP m' rest default
      | _ => default

/-- The spec's words for `NestedStore.get` (claim C8): the final key's
value when every path segment except the last resolves to a nested
mapping — through the actual entries only — and the final key exists on
it; the supplied default in every other case. -/
def specNestedGet (m : List (String × PyVal)) (keys : List String)
    (default : PyVal) : PyVal :=
  match keys with
  | [] => default
  | [last] => (lookupKey m last).getD default
  | key :: rest =>
      match lookupKey m key with
      | some (.dict m') => specNestedGet m' rest default
      | _ => default

/-- `dict_utils.set_nested(d, value, *keys)` on the entry list of a dict
root, for a non-empty key path.  The loop `temp = temp.setdefault(key,
dict())` creates missing intermediates; when an existing intermediate
value is not a dict, the next step raises — `TypeError` from the final
item assignment if only the last key remains, `AttributeError` from
`.setdefault` otherwise. -/
def setNestedGo (m : List (String × PyVal)) (value : PyVal) :
    List String → Except Err (List (String × PyVal))
  | [] => .ok m
  | [last] => .ok (insertKey m last value)
  | key :: rest =>
      match lookupKey m key with
      | Option.none => do
          let m'' ← setNestedGo [] value rest
          .ok (insertKey m key (.dict m''))
      | some (.dict m') => do
          let m'' ← setNestedGo m' value rest
          .ok (insertKey m key (.dict m''))
      | some _ =>
          .error (if rest.length == 1 then .typeError else .attributeError)

/-- `dict_utils.set_nested(d, value, *keys)`: returns `d` unchanged for
an empty path, otherwise walks/creates intermediates and assigns the
final key.  On a non-dict root the first loop step raises
`AttributeError` (`.setdefault`), or `TypeError` when there is no
intermediate step and `d[keys[-1]] = value` is executed directly. -/
def set_nested (d : PyVal) (value : PyVal) (keys : List String) :
    Except Err PyVal :=
  match keys with
  | [] => .ok d
  | _ =>
      match d with
      | .dict m => (setNestedGo m value keys).map PyVal.dict
      | _ => .error (if keys.length == 1 then .typeError else .attributeError)

/-- The success condition of `set_nested` on a dict: every key of the
path that is present (except the last, which is overwritten) must map to
a dict; keys missing along the way are created, so everything beneath
them is clear. -/
def setPathClear (m : List (String × PyVal)) : List String → Bool
  | [] => true
  | [_] => true
  | key :: rest =>
      match lookupKey m key with
      | Option.none => true
      | some (.dict m') => setPathClear m' rest
      | some _ => false

/-! ## `src/utils/random_utils.py` and `src/utils/type_utils.py`

Randomness is embedded by explicit oracles: every call of
`random.random()` is a rational `r` (a real run has `0 ≤ r < 1`; the
theorems assume at most `0 ≤ r ≤ 1`), every `random.choices` /
`random.choice` pick is a natural number reduced modulo the population
size, and every `random.randint(a,b)` draw is a natural reduced into
`[a,b]`.  Quantifying over all oracle values covers every run the
Python code can make (for weighted picks it covers a superset — indices
of zero weight too — which only strengthens universally quantified
results; the concrete runs used in counterexamples pick only
positive-weight indices, so they are realizable). -/

/-- Python `isinstance(v, float)`. -/
def pyIsFloat : PyVal → Bool
  | .float _ => true
  | _ => false

/-- Python `isinstance(v, int)` — `bool` is a subclass of `int`. -/
def pyIsIntLike : PyVal → Bool
  | .int _ => true
  | .bool _ => true
  | _ => false

/-- Numeric in Python's arithmetic sense: `int`, `bool` or `float`. -/
def pyIsNum (v : PyVal) : Bool := pyIsIntLike v || pyIsFloat v

/-- Numeric value of a number-like `PyVal` (`True == 1`, `False == 0`). -/
def toQ : PyVal → ℚ
  | .bool b => if b then 1 else 0
  | .int n => (n : ℚ)
  | .float q => q
  | _ => 0

/-- Integer value of an `int`/`bool` `PyVal`. -/
def toZ : PyVal → ℤ
  | .bool b => if b then 1 else 0
  | .int n => n
  | _ => 0

/-- Python `a < b` on the values the embedded code compares: numbers
with numbers, strings with strings; any other pair raises `TypeError`.
(Python also orders lists elementwise, but each `random_min_max` run
that reaches a list-list comparison holds a float and a non-number in
the same collection and raises `TypeError` on a later cross-type
comparison, so collapsing list comparison into the `TypeError` branch
preserves every call's outcome.) -/
def pyLt (a b : PyVal) : Except Err Bool :=
  if pyIsNum a && pyIsNum b then .ok (decide (toQ a < toQ b))
  else
    match a, b with
    | .str s, .str t => .ok (decide (s < t))
    | _, _ => .error .typeError

/-- Python `a > b` (same comparability domain as `pyLt`). -/
def pyGt (a b : PyVal) : Except Err Bool :=
  if pyIsNum a && pyIsNum b then .ok (decide (toQ b < toQ a))
  else
    match a, b with
    | .str s, .str t => .ok (decide (t < s))
    | _, _ => .error .typeError

/-- Python `a >= b`. -/
def pyGe (a b : PyVal) : Except Err Bool :=
  if pyIsNum a && pyIsNum b then .ok (decide (toQ b ≤ toQ a))
  else
    match a, b with
    | .str s, .str t => .ok (decide (t ≤ s))
    | _, _ => .error .typeError

/-- Python `min(xs)`: first element, then fold keeping the current
minimum, replacing it only when a later element compares strictly
smaller; `ValueError` on an empty sequence. -/
def pyMinL : List PyVal → Except Err PyVal
  | [] => .error .valueError
  | x :: xs =>
      xs.foldlM (fun cur y => do
        let lt ← pyLt y cur
        pure (if lt then y else cur)) x

/-- Python `max(xs)` (dual of `pyMinL`). -/
def pyMaxL : List PyVal → Except Err PyVal
  | [] => .error .valueError
  | x :: xs =>
      xs.foldlM (fun cur y => do
        let gt ← pyGt y cur
        pure (if gt then y else cur)) x

/-- Python binary `max(a, b)`: keeps `a` unless `b > a`. -/
def pyMax2 (a b : PyVal) : Except Err PyVal := do
  let gt ← pyGt b a
  pure (if gt then b else a)

/-- Python binary `min(a, b)`: keeps `a` unless `b < a`. -/
def pyMin2 (a b : PyVal) : Except Err PyVal := do
  let lt ← pyLt b a
  pure (if lt then b else a)

/-- `random_utils.random_min_max(v)`.  A set/tuple is modelled like a
list (the source converts sets to tuples first).  For a collection:
if any element is a float, `random.uniform(min(v), max(v))` — the
uniform draw is `lo + (hi-lo)·rF` with oracle `rF ∈ [0,1]`; else if all
elements are ints (or bools), `random.randint(min(v), max(v))` — the
draw is `lo + rI mod (hi-lo+1)`; otherwise the explicit
`ValueError(f"랜덤 값 오류: ...")`, the spec's `InvalidRange`.  A
non-collection is returned unchanged. -/
def random_min_max (v : PyVal) (rI : ℕ) (rF : ℚ) : Except Err PyVal :=
  match v with
  | .list xs =>
      if xs.any pyIsFloat then do
        let lo ← pyMinL xs
        let hi ← pyMaxL xs
        pure (.float (toQ lo + (toQ hi - toQ lo) * rF))
      else if xs.all pyIsIntLike then do
        let lo ← pyMinL xs
        let hi ← pyMaxL xs
        pure (.int (toZ lo + (rI : ℤ) % (toZ hi - toZ lo + 1)))
      else .error .valueError
  | _ => .ok v

/-- `random.choice(xs)` with pick oracle: `IndexError` on an empty
sequence, otherwise the element at the (in-range) picked index. -/
def random_choice {α : Type} (xs : List α) (pick : ℕ) : Except Err α :=
  match xs with
  | [] => .error .indexError
  | x :: _ => .ok (xs.getD (pick % xs.length) x)

/-- `random_utils.random_weight(i)`: a string is returned as-is, a list
yields `random.choice`, a dict a weighted choice over its keys
(`TypeError` if a weight is non-numeric — `random.choices` fails summing
them — and `ValueError` when the dict is nonempty with total weight
`≤ 0`; an empty dict gives `IndexError`); any other value is returned
unchanged (the final `else` branch). -/
def random_weight (i : PyVal) (pick : ℕ) : Except Err PyVal :=
  match i with
  | .str s => .ok (.str s)
  | .list xs => random_choice xs pick
  | .dict m =>
      if !(m.all fun kv => pyIsNum kv.2) then .error .typeError
      else if m.isEmpty then .error .indexError
      else if (m.map fun kv => toQ kv.2).sum ≤ 0 then .error .valueError
      else do
        let k ← random_choice (m.map Prod.fst) pick
        pure (.str k)
  | _ => .ok i

/-- `random_utils.random_weight_count(d, count, default)`: a non-dict
returns `default or []`; a non-numeric weight raises the explicit
`TypeError` (the spec's `InvalidWeight`); then `random.choices(keys,
weights, k=count)` — `IndexError` on an empty dict, `ValueError` on a
non-positive weight total, otherwise `count` independent picks (with
replacement). -/
def random_weight_count (d : PyVal) (count : ℕ) (defaultL : List String)
    (o : ℕ → ℕ) : Except Err (List String) :=
  match d with
  | .dict m =>
      if !(m.all fun kv => pyIsNum kv.2) then .error .typeError
      else if m.isEmpty then .error .indexError
      else if (m.map fun kv => toQ kv.2).sum ≤ 0 then .error .valueError
      else
        (List.range count).mapM (fun i => random_choice (m.map Prod.fst) (o i))
  | _ => .ok defaultL

/-- `random.sample(items, k)` for `0 ≤ k ≤ len(items)`: repeatedly
removes the element at a picked index, producing `k` distinct
positions. -/
def sampleGo {α : Type} : List α → ℕ → (ℕ → ℕ) → List α
  | _, 0, _ => []
  | [], _ + 1, _ => []
  | x :: xs, k + 1, o =>
      let idx := o 0 % (x :: xs).length
      let chosen := (x :: xs).getD idx x
      chosen :: sampleGo ((x :: xs).eraseIdx idx) k (fun i => o (i + 1))

/-- `random_utils.random_items_count(items, count)` for a dict argument
(the only shape `lora_change` passes): the key list if its length is at
most `count`, else `random.sample` of `count` keys — `TypeError` when
`count` is not numeric (the `>` comparison) or not an integer (the
sample size), `ValueError` when it is a negative integer. -/
def random_items_count (keys : List PyVal) (count : PyVal) (o : ℕ → ℕ) :
    Except Err (List PyVal) :=
  if !pyIsNum count then .error .typeError
  else if (keys.length : ℚ) > toQ count then
    if !pyIsIntLike count then .error .typeError
    else if toZ count < 0 then .error .valueError
    else .ok (sampleGo keys (toZ count).toNat o)
  else .ok keys

/-- `type_utils.get_type_list(dic, type_tuple, exclude_tuple)`: keys of
the dict whose value satisfies the inclusion `isinstance` and not the
exclusion one; `[]` for a non-dict. -/
def get_type_list (dic : PyVal) (incl excl : PyVal → Bool) : List String :=
  match dic with
  | .dict m => (m.filter fun kv => incl kv.2 && !excl kv.2).map Prod.fst
  | _ => []

/-! ## `src/main.py` — OverlayRule structure, cleanup pass and
auxiliary-overlay selection (`_clean_weight_lora`, `lora_change`) -/

/-- One candidate entry of an OverlayRule's `dic` (a YAML dict): the
keys `_clean_weight_lora` / `lora_change` read.  A missing key is
`Option.none`; `v2.get(key)` is `(·.getD .none)` and presence tests
(`weight_key in v`) are `Option.isSome`.  The entry's other keys
(`positive`/`negative` tag payloads) are untouched by the embedded
operations and do not influence the selected overlay-name set, so they
are not carried. -/
structure Cand where
  weight : Option PyVal
  per : Option PyVal
  loras : Option PyVal
  deriving Repr

/-- One OverlayRule (a dict value of `WeightLora.yml`): the keys
`lora_change` / `_clean_weight_lora` read, plus its `dic` of candidates.
A rule dict without a `dic` key behaves exactly like `dic` mapped to an
empty dict (`v1.get('dic', dict())`), so `dic` is the possibly-empty
entry list. -/
structure Rule where
  per : Option PyVal
  perMax : Option PyVal
  perFirsts : Option PyVal
  weight : Option PyVal
  weightMax : Option PyVal
  total : Option PyVal
  totalMax : Option PyVal
  dic : List (String × Cand)
  deriving Repr

/-- A value of the top-level `WeightLora` structure: a dict value is a
`rule`; `other` is a non-dict value (skipped by the cleanup pass's
`isinstance(v1, dict)` guard, and an error in `lora_change`). -/
inductive WLEntry where
  | rule (r : Rule)
  | other (v : PyVal)
  deriving Repr

/-- Python `x in names` for a list of strings: equal to some element
(only a string can be). -/
def pyMemStr : PyVal → List String → Bool
  | .str s, names => names.contains s
  | _, _ => false

/-- The `loras` filtering step of `_clean_weight_lora`: keeps dict
entries / list elements / a string value occurring in the live
asset-name list, and signals `None`-or-falsy (candidate pruned) as
`Option.none` — a dict or list survives when the filtered result is
nonempty, a string when it is a nonempty member of the list, and any
other shape never survives (`loras_tmp` stays `None`). -/
def filterLoras (names : List String) : PyVal → Option PyVal
  | .dict m =>
      let m' := m.filter fun kv => names.contains kv.1
      if m'.isEmpty then Option.none else some (.dict m')
  | .list xs =>
      let xs' := xs.filter fun x => pyMemStr x names
      if xs'.isEmpty then Option.none else some (.list xs')
  | .str s => if names.contains s && !(s == "") then some (.str s) else Option.none
  | _ => Option.none

/-- Candidate-level step of `_clean_weight_lora`: a candidate with
neither a truthy `weight` nor a truthy `per` is pruned; otherwise its
`loras` is filtered against the live asset names and the candidate is
pruned when nothing survives, else kept with the filtered `loras`
written back. -/
def cleanCand (names : List String) (c : Cand) : Option Cand :=
  if !(truthy (c.weight.getD .none) || truthy (c.per.getD .none)) then Option.none
  else
    match filterLoras names (c.loras.getD (.dict [])) with
    | some l => some { c with loras := some l }
    | Option.none => Option.none

/-- Per-entry step of `_clean_weight_lora`: a non-dict value is kept
untouched (the `isinstance(v1, dict)` guard `continue`s over it); a rule
has its candidates pruned by `cleanCand` and is dropped entirely when
its `dic` becomes empty, else kept with the pruned `dic` written
back. -/
def cleanEntry (names : List String) (kv : String × WLEntry) :
    Option (String × WLEntry) :=
  match kv.2 with
  | .other v => some (kv.1, .other v)
  | .rule r =>
      let dic' := r.dic.filterMap fun kc =>
        (cleanCand names kc.2).map fun c => (kc.1, c)
      if dic'.isEmpty then Option.none
      else some (kv.1, .rule { r with dic := dic' })

/-- `main._clean_weight_lora`: the cleanup pass over the whole
`WeightLora` structure. -/
def clean_weight_lora (names : List String) (wl : List (String × WLEntry)) :
    List (String × WLEntry) :=
  wl.filterMap (cleanEntry names)

/-- `random_utils.random_dict_weight(d, 'weight', count)`: the weight
sub-dict of candidates carrying a `weight` key; empty → `default or []`;
otherwise `random.choices` over it with `k=count` — `TypeError` when a
collected weight is non-numeric or `count` is not an integer,
`ValueError` on a non-positive total, else `count` independent picks
(with replacement). -/
def random_dict_weight (d : List (String × Cand)) (count : PyVal)
    (defaultL : List String) (o : ℕ → ℕ) : Except Err (List String) :=
  let wd := d.filterMap fun kv => kv.2.weight.map fun w => (kv.1, w)
  if wd.isEmpty then .ok defaultL
  else if !(wd.all fun kv => pyIsNum kv.2) then .error .typeError
  else if (wd.map fun kv => toQ kv.2).sum ≤ 0 then .error .valueError
  else if !pyIsIntLike count then .error .typeError
  else .ok ((List.range (toZ count).toNat).map fun i =>
    (wd.map Prod.fst).getD (o i % wd.length) "")

/-- Oracle for one rule's processing inside `lora_change`: the
`random_min_max` draws for `perMax` / `weightMax` / `totalMax`, the
per-candidate `random.random()` rolls and `random_weight` picks of the
`per` branch, the `random.choices` picks and per-chosen-key
`random_weight` picks of the `weight` branch, and the `random.sample`
picks of the `total` branch. -/
structure RuleOracle where
  perMaxI : ℕ
  perMaxF : ℚ
  perR : ℕ → ℚ
  perPick : ℕ → ℕ
  wMaxI : ℕ
  wMaxF : ℚ
  wPick : ℕ → ℕ
  wLoraPick : ℕ → ℕ
  tMaxI : ℕ
  tMaxF : ℚ
  tPick : ℕ → ℕ

/-- Insert into the `tive_weight_tmp` dict, keyed by the resolved
overlay value (Python dict assignment, `pyEq` key equality). -/
def insertPy : List (PyVal × Cand) → PyVal → Cand → List (PyVal × Cand)
  | [], k, v => [(k, v)]
  | (a, b) :: m, k, v =>
      if pyEq a k then (a, v) :: m else (a, b) :: insertPy m k v

/-- First-occurrence deduplication (the cardinality/membership content
of building a Python `set` from a list; Python's set iteration order is
arbitrary, and nothing the claims state depends on it). -/
def dedupGo : List String → List String → List String
  | [], _ => []
  | x :: xs, seen =>
      if seen.contains x then dedupGo xs seen else x :: dedupGo xs (x :: seen)

/-- `set(keys)` for a string list, as first-occurrence order. -/
def dedupFirst (l : List String) : List String := dedupGo l []

/-- First-occurrence deduplication of `PyVal`s under `pyEq`. -/
def dedupPy : List PyVal → List PyVal
  | [] => []
  | x :: xs => x :: (dedupPy xs).filter fun y => !pyEq y x

/-- The `per` branch's candidate loop (`lora_change` lines 517–528):
with `perFirsts`, stop once `per_cnt >= per_max` (a Python comparison
that can raise); roll `random.random()` against the candidate's own
`per`; on success resolve its `loras` through `random_weight` and store
the candidate under the resolved value, counting it. -/
def perLoop (o : RuleOracle) (perFirsts : Bool) (perMax : PyVal) :
    List (String × Cand) → ℕ → ℤ → List (PyVal × Cand) →
    Except Err (List (PyVal × Cand))
  | [], _, _, acc => .ok acc
  | (_, c) :: rest, i, cnt, acc => do
      let stop ← if perFirsts then pyGe (.int cnt) perMax else pure false
      if stop then pure acc
      else do
        let accept ← pyGt (c.per.getD (.int 0)) (.float (o.perR i))
        if accept then do
          let lora ← random_weight (c.loras.getD .none) (o.perPick i)
          perLoop o perFirsts perMax rest (i + 1) (cnt + 1) (insertPy acc lora c)
        else perLoop o perFirsts perMax rest (i + 1) cnt acc

/-- The `weight` branch's per-chosen-key loop (`lora_change` lines
538–542): look the key up in `dic` (`.get` — a missing key would make
the following attribute access raise), resolve its `loras` through
`random_weight`, store the candidate under the resolved value. -/
def weightFold (o : RuleOracle) (dic : List (String × Cand)) :
    List String → ℕ → List (PyVal × Cand) → Except Err (List (PyVal × Cand))
  | [], _, acc => .ok acc
  | k :: ks, j, acc =>
      match lookupKey dic k with
      | Option.none => .error .attributeError
      | some c => do
          let lora ← random_weight (c.loras.getD .none) (o.wLoraPick j)
          weightFold o dic ks (j + 1) (insertPy acc lora c)

/-- Processing of one OverlayRule inside `lora_change` (lines 503–561):
the optional `per`, `weight` and `total` strategies in source order,
producing the rule's `loras_set_tmp` — the distinct resolved overlay
values.  (The parallel accumulation into `self.tive_weight` merges tag
payloads of exactly these values and does not affect the selected-name
set, so it is not carried.) -/
def processRule (r : Rule) (o : RuleOracle) : Except Err (List PyVal) := do
  let tw ← if truthy (r.per.getD (.bool false)) then do
      let perMax ← random_min_max (r.perMax.getD (.int 0)) o.perMaxI o.perMaxF
      perLoop o (truthy (r.perFirsts.getD (.bool false))) perMax r.dic 0 0 []
    else pure []
  let tw ← if truthy (r.weight.getD (.bool false)) then do
      let weightMax ← random_min_max (r.weightMax.getD (.int 0)) o.wMaxI o.wMaxF
      let keys ← random_dict_weight r.dic weightMax [] o.wPick
      weightFold o r.dic (dedupFirst keys) 0 tw
    else pure tw
  if truthy (r.total.getD (.bool false)) then do
    let totalMax ← random_min_max (r.totalMax.getD (.int 0)) o.tMaxI o.tMaxF
    let l ← random_items_count (tw.map Prod.fst) totalMax o.tPick
    pure (dedupPy l)
  else pure (tw.map Prod.fst)

/-- Union of the running `loras_set` with a rule's `loras_set_tmp`
(Python set union; first-occurrence order is canonical). -/
def unionPy (a b : List PyVal) : List PyVal :=
  a ++ b.filter fun x => !(a.any (pyEq x))

/-- `main.lora_change`: flip the `noLoraPer` coin to skip entirely,
otherwise process every OverlayRule independently and union the
results.  A non-dict rule value raises (`len(v1)` → `TypeError` for a
scalar; `v1.get` → `AttributeError` for a string or list). -/
def loraChangeGo (os : ℕ → RuleOracle) :
    List (String × WLEntry) → ℕ → List PyVal → Except Err (List PyVal)
  | [], _, acc => .ok acc
  | (_, e) :: rest, i, acc =>
      match e with
      | .other (.str _) => .error .attributeError
      | .other (.list _) => .error .attributeError
      | .other _ => .error .typeError
      | .rule r => do
          let s ← processRule r (os i)
          loraChangeGo os rest (i + 1) (unionPy acc s)

/-- `main.lora_change` top level: the selected overlay-value set of one
iteration. -/
def lora_change (weightLora : List (String × WLEntry)) (noLoraPer : ℚ)
    (rNoLora : ℚ) (os : ℕ → RuleOracle) : Except Err (List PyVal) :=
  if noLoraPer > rNoLora then .ok []
  else loraChangeGo os weightLora 0 []

/-! ## `src/main.py` — base-model and character selection -/

/-- Oracle for `checkpoint_change` / the character branch of
`char_change`: the `random.choices` pick over category weights, the
`random.random()` of the weighted coin, and the picks of the three
possible name draws (weighted / among-unweighted / fully uniform). -/
structure SelOracle where
  typePick : ℕ
  rWeight : ℚ
  namePick : ℕ
  subPick : ℕ
  uniPick : ℕ

/-- `main.checkpoint_change`, after the one-shot `safetensorsStart`
bootstrap (lines 405–444; with no `safetensorsStart` configured the
`if safetensors_start:` guard is falsy and lines 387–403 are a no-op).
Pick the category by weight; flip the `CheckpointWeightPer` coin; raise
`ValueError` when the category's name list is empty; with the coin,
pick from the WeightCheckpoint table when nonempty (warning + uniform
otherwise); against the coin, prefer a uniform pick among names absent
from the table, falling back to fully uniform; finally resolve the path
from `CheckpointFileDics`, raising `ValueError` when it is falsy. -/
def checkpoint_change (checkpointTypes : PyVal) (ckWeightPer : ℚ)
    (weightCheckpoint : List (String × PyVal)) (fileNames : List String)
    (fileDics : List (String × PyVal)) (o : SelOracle) :
    Except Err (String × String × PyVal) := do
  let ts ← random_weight_count checkpointTypes 1 [] fun _ => o.typePick
  let ct ← match ts with
    | [] => .error .indexError
    | t :: _ => pure t
  let coin := ckWeightPer > o.rWeight
  if fileNames.isEmpty then .error .valueError
  else do
    let name ← if coin then
        if weightCheckpoint.length > 0 then do
          let ns ← random_weight_count (.dict weightCheckpoint) 1 [] fun _ => o.namePick
          match ns with
          | [] => .error .indexError
          | n :: _ => pure n
        else random_choice fileNames o.uniPick
      else do
        let sub := fileNames.filter fun x => (lookupKey weightCheckpoint x).isNone
        if sub.length > 0 then random_choice sub o.subPick
        else random_choice fileNames o.uniPick
    let path := (lookupKey fileDics name).getD .none
    if !truthy path then .error .valueError
    else pure (ct, name, path)

/-- Oracle for `char_change`: the `noCharPer` coin plus the selection
oracle of the character branch. -/
structure CharOracle where
  rNoChar : ℚ
  rWeight : ℚ
  namePick : ℕ
  subPick : ℕ
  uniPick : ℕ

/-- `main.char_change`: flip the `noCharPer` coin; when it fires the
name is the sentinel string `'noChar'` and the path the first entry of
`CharFileLists` (or `None` when none were discovered).  Otherwise the
same two-branch weighted/unweighted policy as base-model selection,
except that an empty name list yields Python `None` instead of raising
(`random.choice(...) if char_file_names else None`); the path is then
looked up in `CharFileDics` (default `None`).  Returns (name, path,
no_char). -/
def char_change (noCharPer charWeightPer : ℚ) (charFileNames : List String)
    (weightChar : List (String × PyVal)) (charFileLists : List String)
    (charFileDics : List (String × PyVal)) (o : CharOracle) :
    Except Err (PyVal × PyVal × Bool) := do
  let noChar := noCharPer > o.rNoChar
  if noChar then
    let path : PyVal := match charFileLists with
      | [] => .none
      | p :: _ => .str p
    pure (.str "noChar", path, true)
  else do
    let coin := charWeightPer > o.rWeight
    let name ← if coin then
        if weightChar.length > 0 then do
          let ns ← random_weight_count (.dict weightChar) 1 [] fun _ => o.namePick
          match ns with
          | [] => .error .indexError
          | n :: _ => pure (PyVal.str n)
        else
          match charFileNames with
          | [] => pure PyVal.none
          | _ => do
              let n ← random_choice charFileNames o.uniPick
              pure (PyVal.str n)
      else do
        let sub := charFileNames.filter fun x => (lookupKey weightChar x).isNone
        if sub.length > 0 then do
          let n ← random_choice sub o.subPick
          pure (PyVal.str n)
        else
          match charFileNames with
          | [] => pure PyVal.none
          | _ => do
              let n ← random_choice charFileNames o.uniPick
              pure (PyVal.str n)
    let path : PyVal := match name with
      | .str s => (lookupKey charFileDics s).getD .none
      | _ => .none
    pure (name, path, false)

/-! ## `src/main.py` — base-model weight table (`_get_weight_checkpoint`)
and the `init` call order -/

/-- The string elements of a stored name-list value (the
`CheckpointFileNames` entries are the scanned file stems, always
strings; a non-list stored value iterates nothing here). -/
def asStrList : PyVal → List String
  | .list xs => xs.filterMap fun x =>
      match x with
      | .str s => some s
      | _ => Option.none
  | _ => []

/-- The loop body of `main._get_weight_checkpoint`: the value stored
for one name — the `weight` field of the asset's `dicCheckpointYml`
record when truthy (`if weight:`), else the `WeightCheckpoint.yml`
value when the key is present (`elif key in weight_yml:`), else the
configured `CheckpointWeightDefault` (150 when unconfigured). -/
def ckWeightEntry (typeDics : List (String × PyVal)) (ct : String)
    (weightYml : List (String × PyVal)) (config : List (String × PyVal))
    (key : String) : PyVal :=
  let w := getNestedP typeDics [ct, "dicCheckpointYml", key, "weight"] .none
  if truthy w then w
  else
    match lookupKey weightYml key with
    | some y => y
    | Option.none => (lookupKey config "CheckpointWeightDefault").getD (.int 150)

/-- `main._get_weight_checkpoint` (the table it stores): one entry per
name of the category's `CheckpointFileNames`, each assigned its
`ckWeightEntry`. -/
def get_weight_checkpoint (typeDics : List (String × PyVal)) (ct : String)
    (weightYml : List (String × PyVal)) (config : List (String × PyVal)) :
    List (String × PyVal) :=
  let fileNames := asStrList (getNestedP typeDics [ct, "CheckpointFileNames"] (.list []))
  fileNames.foldl
    (fun acc key => insertKey acc key (ckWeightEntry typeDics ct weightYml config key))
    []

/-- The `init` call sequence for one category up to the point
`_get_weight_checkpoint` runs (`init` lines 122–135): `type_dics[ct]`
is set to an empty dict, then the three safetensors scans and the two
setup files store their eleven values under `ct` — and `dicCheckpointYml`
is only stored later (line 140), after the weight tables are built. -/
def initPrefixTypeDics (ct : String)
    (ckD ckL ckN chD chL chN loD loL loN wc wf : PyVal) : Except Err PyVal := do
  let d : PyVal := .dict [(ct, .dict [])]
  let d ← set_nested d ckD [ct, "CheckpointFileDics"]
  let d ← set_nested d ckL [ct, "CheckpointFileLists"]
  let d ← set_nested d ckN [ct, "CheckpointFileNames"]
  let d ← set_nested d chD [ct, "CharFileDics"]
  let d ← set_nested d chL [ct, "CharFileLists"]
  let d ← set_nested d chN [ct, "CharFileNames"]
  let d ← set_nested d loD [ct, "LoraFileDics"]
  let d ← set_nested d loL [ct, "LoraFileLists"]
  let d ← set_nested d loN [ct, "LoraFileNames"]
  let d ← set_nested d wc [ct, "setupWildcard"]
  let d ← set_nested d wf [ct, "setupWorkflow"]
  pure d

/-! ## `src/main.py` — per-parameter workflow resolution
(`set_workflow_func_random2`) -/

/-- Python `a * b` on the value shapes `v *= s` can meet: numeric
products (int·int stays int, anything with a float is a float, bools
count as 0/1), string/list repetition by an integer, `TypeError`
otherwise. -/
def pyMul (a b : PyVal) : Except Err PyVal :=
  match a, b with
  | .str s, _ =>
      if pyIsIntLike b then .ok (.str (String.join (List.replicate (toZ b).toNat s)))
      else .error .typeError
  | _, .str s =>
      if pyIsIntLike a then .ok (.str (String.join (List.replicate (toZ a).toNat s)))
      else .error .typeError
  | .list xs, _ =>
      if pyIsIntLike b then .ok (.list (List.replicate (toZ b).toNat xs).flatten)
      else .error .typeError
  | _, .list xs =>
      if pyIsIntLike a then .ok (.list (List.replicate (toZ a).toNat xs).flatten)
      else .error .typeError
  | _, _ =>
      if pyIsIntLike a && pyIsIntLike b then .ok (.int (toZ a * toZ b))
      else if pyIsNum a && pyIsNum b then .ok (.float (toQ a * toQ b))
      else .error .typeError

/-- The scale post-processor of `set_workflow_func_random2` (lines
593–596): when a `workflow_scale` override for the node+parameter is
truthy, range-resolve it and multiply. -/
def applyScaleStep (sw : List (String × PyVal)) (node k : String)
    (oI : ℕ) (oF : ℚ) (v : PyVal) : Except Err PyVal :=
  let s := getNestedP sw ["workflow_scale", node, k] .none
  if truthy s then do
    let s' ← random_min_max s oI oF
    pyMul v s'
  else pure v

/-- The min post-processor (lines 598–601): when a `workflow_min`
override is truthy, range-resolve it and take `max(v, m)`. -/
def applyMinStep (sw : List (String × PyVal)) (node k : String)
    (oI : ℕ) (oF : ℚ) (v : PyVal) : Except Err PyVal :=
  let m := getNestedP sw ["workflow_min", node, k] .none
  if truthy m then do
    let m' ← random_min_max m oI oF
    pyMax2 v m'
  else pure v

/-- The max post-processor (lines 603–606): when a `workflow_max`
override is truthy, range-resolve it and take `min(v, m)`. -/
def applyMaxStep (sw : List (String × PyVal)) (node k : String)
    (oI : ℕ) (oF : ℚ) (v : PyVal) : Except Err PyVal :=
  let m := getNestedP sw ["workflow_max", node, k] .none
  if truthy m then do
    let m' ← random_min_max m oI oF
    pyMin2 v m'
  else pure v

/-- The per-parameter body of `main.set_workflow_func_random2` (lines
584–608): start from the node parameter's current value `v0`, replace
it by a category `workflow` override when configured, apply the
optional `func` callback and the optional random resolver, then the
scale, min and max post-processors in that fixed source order.  The
result is what `set_workflow` writes back. -/
def resolveParam (sw : List (String × PyVal)) (node k : String) (v0 : PyVal)
    (funcOpt : Option (PyVal → String → PyVal))
    (randomFunc : Option (PyVal → Except Err PyVal))
    (oSI : ℕ) (oSF : ℚ) (oMI : ℕ) (oMF : ℚ) (oXI : ℕ) (oXF : ℚ) :
    Except Err PyVal := do
  let v := getNestedP sw ["workflow", node, k] v0
  let v := match funcOpt with
    | some f => f v k
    | Option.none => v
  let v ← match randomFunc with
    | some rf => rf v
    | Option.none => pure v
  let v ← applyScaleStep sw node k oSI oSF v
  let v ← applyMinStep sw node k oMI oMF v
  applyMaxStep sw node k oXI oXF v

/-! ## `src/utils/file_handler.py` scan and `src/main.py`
`update_safetensors` -/

/-- A file found by `path.rglob('*.safetensors')`, abstracted to the two
projections the scan uses: its stem and its path relative to the
configured root. -/
structure ScanFile where
  stem : String
  rel : String
  deriving DecidableEq, Repr

/-- Python `dict(zip(names, paths))`: fold of dict assignments — a
duplicated name keeps its first position with the last value. -/
def dictOfZip (ns ps : List String) : List (String × String) :=
  (ns.zip ps).foldl (fun acc kv => insertKey acc kv.1 kv.2) []

/-- `file_handler.get_file_dict_list`: the three catalog views built
from a directory scan — name→path dict, path list, name list. -/
def get_file_dict_list (files : List ScanFile) :
    List (String × String) × List String × List String :=
  let names := files.map (·.stem)
  let paths := files.map (·.rel)
  (dictOfZip names paths, paths, names)

/-- A file-system change event kind, as delivered by the watcher. -/
inductive FileEvent where
  | created
  | modified
  | deleted
  deriving DecidableEq, Repr

/-- `event_type in ['deleted', 'modified']`. -/
def FileEvent.isRemove : FileEvent → Bool
  | .deleted => true
  | .modified => true
  | .created => false

/-- `event_type in ['created', 'modified']`. -/
def FileEvent.isAdd : FileEvent → Bool
  | .created => true
  | .modified => true
  | .deleted => false

/-- `main.update_safetensors` on one category's three views (the
`name`/`spath` arguments are the stem and relative path the callback
derives from the event's absolute path): delete/modified first pops the
name from the dict and removes the path/name from the lists when
present; created/modified then assigns the dict entry and appends the
path/name when absent. -/
def update_safetensors (dics : List (String × String))
    (lists names : List String) (ev : FileEvent) (name spath : String) :
    List (String × String) × List String × List String :=
  let dics := if ev.isRemove then eraseKey dics name else dics
  let lists := if ev.isRemove then lists.erase spath else lists
  let names := if ev.isRemove then names.erase name else names
  let dics := if ev.isAdd then insertKey dics name spath else dics
  let lists := if ev.isAdd && !lists.contains spath then lists ++ [spath] else lists
  let names := if ev.isAdd && !names.contains name then names ++ [name] else names
  (dics, lists, names)

/-- One category's three views of one asset kind: name→path dict, path
list, name list — exactly the triple `update_safetensors` reads and
writes back. -/
abbrev CatalogState :=
  List (String × String) × List String × List String

/-- `update_safetensors` as a transformation of a `CatalogState`. -/
def applyEvent (s : CatalogState) (ev : FileEvent) (name spath : String) :
    CatalogState :=
  update_safetensors s.1 s.2.1 s.2.2 ev name spath

/-- A sequence of watcher events applied in order. -/
def applyEvents (s : CatalogState)
    (evs : List (FileEvent × String × String)) : CatalogState :=
  evs.foldl (fun s e => applyEvent s e.1 e.2.1 e.2.2) s

/-- The removal half of `update_safetensors` (deleted/modified). -/
def catalogRemove (s : CatalogState) (name spath : String) : CatalogState :=
  (eraseKey s.1 name, s.2.1.erase spath, s.2.2.erase name)

/-- The insertion half of `update_safetensors` (created/modified). -/
def catalogAdd (s : CatalogState) (name spath : String) : CatalogState :=
  (insertKey s.1 name spath,
   if !s.2.1.contains spath then s.2.1 ++ [spath] else s.2.1,
   if !s.2.2.contains name then s.2.2 ++ [name] else s.2.2)

/-- The spec's name-index invariant (claim C6's words): every asset name
appears at most once in the flat name list, and the set of names in the
flat name list equals the key set of the name→path map (keys themselves
unduplicated). -/
def NamesInv (s : CatalogState) : Prop :=
  s.2.2.Nodup ∧ (s.1.map Prod.fst).Nodup ∧
    ∀ n, n ∈ s.2.2 ↔ n ∈ s.1.map Prod.fst

/-! # Theorems -/

/-! ## Association-list helper lemmas -/

theorem lookupKey_insertKey {α : Type} (m : List (String × α)) (k k' : String)
    (v : α) :
    lookupKey (insertKey m k v) k' = if k == k' then some v else lookupKey m k' := by
  induction m with
  | nil =>
    by_cases h : k = k' <;> simp [insertKey, lookupKey, h]
  | cons hd tl ih =>
    obtain ⟨a, b⟩ := hd
    by_cases hak : a = k
    · subst hak
      by_cases hk' : a = k' <;> simp [insertKey, lookupKey, hk']
    · by_cases hk' : a = k'
      · subst hk'
        have hkk : ¬k = a := fun h => hak h.symm
        simp [insertKey, lookupKey, hak, hkk]
      · simp [insertKey, lookupKey, hak, hk', ih]

theorem lookupKey_insertKey_self {α : Type} (m : List (String × α))
    (k : String) (v : α) : lookupKey (insertKey m k v) k = some v := by
  simp [lookupKey_insertKey]

theorem insertKey_idem {α : Type} (m : List (String × α)) (k : String)
    (v : α) : insertKey (insertKey m k v) k v = insertKey m k v := by
  induction m with
  | nil => simp [insertKey]
  | cons hd tl ih =>
    obtain ⟨a, b⟩ := hd
    by_cases hak : a = k
    · simp [insertKey, hak]
    · simp [insertKey, hak, ih]

theorem map_fst_insertKey {α : Type} (m : List (String × α)) (k : String)
    (v : α) :
    (insertKey m k v).map Prod.fst =
      if k ∈ m.map Prod.fst then m.map Prod.fst else m.map Prod.fst ++ [k] := by
  induction m with
  | nil => simp [insertKey]
  | cons hd tl ih =>
    obtain ⟨a, b⟩ := hd
    by_cases hak : a = k
    · subst hak
      simp [insertKey]
    · have : ¬(k = a) := fun h => hak h.symm
      simp only [insertKey, beq_iff_eq, hak, if_false, List.map_cons, List.mem_cons, this,
        false_or, ih]
      by_cases hk : k ∈ tl.map Prod.fst <;> simp [hk]

theorem map_fst_eraseKey {α : Type} (m : List (String × α)) (k : String) :
    (eraseKey m k).map Prod.fst = (m.map Prod.fst).erase k := by
  induction m with
  | nil => simp [eraseKey]
  | cons hd tl ih =>
    obtain ⟨a, b⟩ := hd
    by_cases hak : a = k
    · subst hak
      simp [eraseKey, List.erase_cons]
    · simp [eraseKey, hak, List.erase_cons, ih]

/-! ## C8 / C10 supporting lemmas: `get_nested` / `set_nested` -/

/-- On a dict root `get_nested` never raises and computes `getNestedP`. -/
theorem get_nested_eq_pure (keys : List String) :
    ∀ (m : List (String × PyVal)) (default : PyVal),
      get_nested (.dict m) keys default = .ok (getNestedP m keys default) := by
  induction keys with
  | nil => intro m default; rfl
  | cons key rest ih =>
    intro m default
    cases rest with
    | nil => rfl
    | cons k2 r2 =>
      cases hv : (lookupKey m key).getD default with
      | dict m' =>
          simp only [get_nested, getNestedP, hv]
          exact ih m' default
      | none => simp [get_nested, getNestedP, hv]
      | bool b => simp [get_nested, getNestedP, hv]
      | int n => simp [get_nested, getNestedP, hv]
      | float q => simp [get_nested, getNestedP, hv]
      | str s => simp [get_nested, getNestedP, hv]
      | list xs => simp [get_nested, getNestedP, hv]

/-- With a non-dict default, the default substituted for a missing
intermediate key can never be traversed into, so `getNestedP` computes
exactly the spec's chain. -/
theorem getNestedP_eq_spec (keys : List String) :
    ∀ (m : List (String × PyVal)) (default : PyVal),
      default.isDict = false →
      getNestedP m keys default = specNestedGet m keys default := by
  induction keys with
  | nil => intro m default _; rfl
  | cons key rest ih =>
    intro m default hdef
    cases rest with
    | nil => rfl
    | cons k2 r2 =>
      cases hl : lookupKey m key with
      | some v =>
          cases v with
          | dict m' =>
              simp only [getNestedP, specNestedGet, hl, Option.getD_some]
              exact ih m' default hdef
          | none => simp [getNestedP, specNestedGet, hl]
          | bool b => simp [getNestedP, specNestedGet, hl]
          | int n => simp [getNestedP, specNestedGet, hl]
          | float q => simp [getNestedP, specNestedGet, hl]
          | str s => simp [getNestedP, specNestedGet, hl]
          | list xs => simp [getNestedP, specNestedGet, hl]
      | none =>
          cases hd : default with
          | dict m' => rw [hd] at hdef; simp [PyVal.isDict] at hdef
          | none => simp [getNestedP, specNestedGet, hl]
          | bool b => simp [getNestedP, specNestedGet, hl, hd]
          | int n => simp [getNestedP, specNestedGet, hl, hd]
          | float q => simp [getNestedP, specNestedGet, hl, hd]
          | str s => simp [getNestedP, specNestedGet, hl, hd]
          | list xs => simp [getNestedP, specNestedGet, hl, hd]

/-- `setPathClear` always holds on an empty dict. -/
theorem setPathClear_nil (keys : List String) : setPathClear [] keys = true := by
  cases keys with
  | nil => rfl
  | cons k rest =>
    cases rest with
    | nil => rfl
    | cons k2 r2 => simp [setPathClear, lookupKey]

/-- Success and post-state of `setNestedGo` along a clear path. -/
theorem setNestedGo_ok (keys : List String) :
    ∀ (m : List (String × PyVal)) (value : PyVal), keys ≠ [] →
      setPathClear m keys = true →
      ∃ m', setNestedGo m value keys = .ok m' ∧
        ∀ default, getNestedP m' keys default = value := by
  induction keys with
  | nil => intro m value h; exact absurd rfl h
  | cons key rest ih =>
    intro m value _ hclear
    cases rest with
    | nil =>
      refine ⟨insertKey m key value, rfl, ?_⟩
      intro default
      simp [getNestedP, lookupKey_insertKey_self]
    | cons k2 r2 =>
      have hne : (k2 :: r2) ≠ [] := by simp
      cases hl : lookupKey m key with
      | none =>
          obtain ⟨m'', hgo, hget⟩ := ih [] value hne (setPathClear_nil _)
          refine ⟨insertKey m key (.dict m''), ?_, ?_⟩
          · simp only [setNestedGo, hl]
            rw [hgo]
            rfl
          · intro default
            simp [getNestedP, lookupKey_insertKey_self, hget]
      | some v =>
          cases v with
          | dict m0 =>
              have hclear' : setPathClear m0 (k2 :: r2) = true := by
                simpa [setPathClear, hl] using hclear
              obtain ⟨m'', hgo, hget⟩ := ih m0 value hne hclear'
              refine ⟨insertKey m key (.dict m''), ?_, ?_⟩
              · simp only [setNestedGo, hl]
                rw [hgo]
                rfl
              · intro default
                simp [getNestedP, lookupKey_insertKey_self, hget]
          | none => simp [setPathClear, hl] at hclear
          | bool b => simp [setPathClear, hl] at hclear
          | int n => simp [setPathClear, hl] at hclear
          | float q => simp [setPathClear, hl] at hclear
          | str s => simp [setPathClear, hl] at hclear
          | list xs => simp [setPathClear, hl] at hclear

/-! ## Claim C8 -/

/-- C8 (corrected): for a dict root, a non-empty key path and a
**non-mapping** caller-supplied default, `get_nested` never raises and
returns the final key's value when every path segment except the last
resolves (through the actual entries) to a nested dict with the final
key present, and the supplied default in every other case
(`specNestedGet` is exactly that case analysis).  The non-mapping
restriction on the default is forced: a mapping default is substituted
for a missing intermediate key and traversed into (see the
counterexample). -/
theorem get_nested_total_matches_spec (m : List (String × PyVal))
    (keys : List String) (default : PyVal) (hkeys : keys ≠ [])
    (hdef : default.isDict = false) :
    get_nested (.dict m) keys default = .ok (specNestedGet m keys default) := by
  rw [get_nested_eq_pure, getNestedP_eq_spec _ _ _ hdef]

theorem get_nested_total_matches_spec_witness :
    (["a", "b"] : List String) ≠ [] ∧ PyVal.isDict (.int 0) = false ∧
    get_nested (.dict [("a", .dict [("b", .int 7)])]) ["a", "b"] (.int 0) =
      .ok (specNestedGet [("a", .dict [("b", .int 7)])] ["a", "b"] (.int 0)) :=
  ⟨by decide, rfl, get_nested_total_matches_spec _ _ _ (by decide) rfl⟩

/-- C8 counterexample: with the mapping default
`dict [("b", 42)]` and the missing intermediate key `"a"`, the source
substitutes the default for the intermediate and traverses it,
returning `42` — not the supplied default, as the claim requires for a
missing intermediate key. -/
theorem get_nested_dict_default_traversed :
    get_nested (.dict []) ["a", "b"] (.dict [("b", .int 42)]) = .ok (.int 42) ∧
    PyVal.int 42 ≠ PyVal.dict [("b", .int 42)] :=
  ⟨rfl, fun h => nomatch h⟩

/-! ## Claim C10 -/

/-- C10 (corrected): for a dict root, a value and a non-empty key path
**whose existing intermediate values are all dicts** (`setPathClear` —
missing intermediates are created), `set_nested` succeeds without
raising, and afterwards the path resolves to the stored value for every
default.  The `setPathClear` restriction is forced: when an existing
intermediate value is not a dict, the source raises (see the
counterexample). -/
theorem set_nested_creates_and_resolves (m : List (String × PyVal))
    (value : PyVal) (keys : List String) (hkeys : keys ≠ [])
    (hclear : setPathClear m keys = true) :
    ∃ m', set_nested (.dict m) value keys = .ok (.dict m') ∧
      ∀ default, get_nested (.dict m') keys default = .ok value := by
  obtain ⟨m', hgo, hget⟩ := setNestedGo_ok keys m value hkeys hclear
  refine ⟨m', ?_, ?_⟩
  · cases keys with
    | nil => exact absurd rfl hkeys
    | cons k rest => simpa [set_nested] using congrArg (Except.map PyVal.dict) hgo
  · intro default
    rw [get_nested_eq_pure, hget]

theorem set_nested_creates_and_resolves_witness :
    (["a", "b"] : List String) ≠ [] ∧
    setPathClear [("a", PyVal.dict [])] ["a", "b"] = true ∧
    ∃ m', set_nested (.dict [("a", .dict [])]) (.int 5) ["a", "b"] = .ok (.dict m') ∧
      ∀ default, get_nested (.dict m') ["a", "b"] default = .ok (.int 5) :=
  ⟨by decide, rfl, set_nested_creates_and_resolves _ _ _ (by decide) rfl⟩

/-- C10 counterexample: with the intermediate key `"a"` present with the
non-dict value `1`, `set_nested` raises (`temp[keys[-1]] = value` on an
int — `TypeError`) instead of succeeding as the claim states. -/
theorem set_nested_raises_on_nondict_intermediate :
    set_nested (.dict [("a", .int 1)]) (.int 9) ["a", "b"] =
      .error .typeError := rfl

/-! ## C5 / C6 supporting lemmas: catalog updates -/

theorem applyEvent_created (s : CatalogState) (n p : String) :
    applyEvent s .created n p = catalogAdd s n p := rfl

theorem applyEvent_deleted (s : CatalogState) (n p : String) :
    applyEvent s .deleted n p = catalogRemove s n p := rfl

theorem applyEvent_modified (s : CatalogState) (n p : String) :
    applyEvent s .modified n p = catalogAdd (catalogRemove s n p) n p := rfl

theorem catalogAdd_idem (s : CatalogState) (n p : String) :
    catalogAdd (catalogAdd s n p) n p = catalogAdd s n p := by
  obtain ⟨d, l, ns⟩ := s
  by_cases hl : p ∈ l <;> by_cases hn : n ∈ ns <;>
    simp [catalogAdd, insertKey_idem, hl, hn]

theorem count_after_add_list (l : List String) (p : String)
    (h : l.count p ≤ 1) :
    (if !l.contains p then l ++ [p] else l).count p = 1 := by
  by_cases hp : p ∈ l
  · have h1 : 1 ≤ l.count p := List.count_pos_iff.mpr hp
    simp [hp, Nat.le_antisymm h h1]
  · have h0 : l.count p = 0 := List.count_eq_zero.mpr hp
    simp [hp, h0]

theorem namesInv_catalogAdd {s : CatalogState} (n p : String)
    (h : NamesInv s) : NamesInv (catalogAdd s n p) := by
  obtain ⟨d, l, ns⟩ := s
  obtain ⟨h1, h2, h3⟩ := h
  by_cases hn : n ∈ ns
  · have hk : n ∈ d.map Prod.fst := (h3 n).mp hn
    refine ⟨?_, ?_, ?_⟩
    · simpa [catalogAdd, hn] using h1
    · simpa [catalogAdd, map_fst_insertKey, hk] using h2
    · intro x
      simpa [catalogAdd, hn, map_fst_insertKey, hk] using h3 x
  · have hk : n ∉ d.map Prod.fst := fun hmem => hn ((h3 n).mpr hmem)
    refine ⟨?_, ?_, ?_⟩
    · simp only [catalogAdd, hn]
      simp [List.nodup_append, h1, hn]
    · simp only [catalogAdd, map_fst_insertKey, hk, if_neg hk]
      simp [List.nodup_append, h2, hk]
    · intro x
      have hx := h3 x
      simp [catalogAdd, hn, hk, map_fst_insertKey, List.mem_append, hx]

theorem namesInv_catalogRemove {s : CatalogState} (n p : String)
    (h : NamesInv s) : NamesInv (catalogRemove s n p) := by
  obtain ⟨d, l, ns⟩ := s
  obtain ⟨h1, h2, h3⟩ := h
  refine ⟨h1.erase n, ?_, ?_⟩
  · rw [catalogRemove, map_fst_eraseKey]
    exact h2.erase n
  · intro x
    rw [catalogRemove, map_fst_eraseKey]
    simp only [h1.mem_erase_iff, h2.mem_erase_iff]
    exact and_congr_right fun _ => h3 x

theorem namesInv_applyEvent {s : CatalogState} (ev : FileEvent)
    (n p : String) (h : NamesInv s) : NamesInv (applyEvent s ev n p) := by
  cases ev with
  | created => rw [applyEvent_created]; exact namesInv_catalogAdd n p h
  | deleted => rw [applyEvent_deleted]; exact namesInv_catalogRemove n p h
  | modified =>
      rw [applyEvent_modified]
      exact namesInv_catalogAdd n p (namesInv_catalogRemove n p h)

theorem namesInv_applyEvents (evs : List (FileEvent × String × String)) :
    ∀ {s : CatalogState}, NamesInv s → NamesInv (applyEvents s evs) := by
  induction evs with
  | nil => intro s h; exact h
  | cons e rest ih =>
      intro s h
      exact ih (namesInv_applyEvent e.1 e.2.1 e.2.2 h)

theorem foldl_insertKey_keys (pairs : List (String × String)) :
    ∀ acc : List (String × String), (pairs.map Prod.fst).Nodup →
      (∀ k ∈ pairs.map Prod.fst, k ∉ acc.map Prod.fst) →
      ((pairs.foldl (fun a kv => insertKey a kv.1 kv.2) acc).map Prod.fst) =
        acc.map Prod.fst ++ pairs.map Prod.fst := by
  induction pairs with
  | nil => intro acc _ _; simp
  | cons kv ps ih =>
      intro acc hnd hdisj
      obtain ⟨k, v⟩ := kv
      have hk : k ∉ acc.map Prod.fst := hdisj k (by simp)
      have hkeys : (insertKey acc k v).map Prod.fst = acc.map Prod.fst ++ [k] := by
        rw [map_fst_insertKey, if_neg hk]
      have hnd' : (ps.map Prod.fst).Nodup := by
        simpa using hnd.of_cons
      have hheads : k ∉ ps.map Prod.fst := by
        have := hnd
        simp only [List.map_cons, List.nodup_cons] at this
        exact this.1
      have hdisj' : ∀ k' ∈ ps.map Prod.fst, k' ∉ (insertKey acc k v).map Prod.fst := by
        intro k' hk'
        rw [hkeys]
        simp only [List.mem_append, List.mem_singleton]
        rintro (hmem | hkeq)
        · exact hdisj k' (by simp [hk']) hmem
        · exact hheads (hkeq ▸ hk')
      calc ((ps.foldl (fun a kv => insertKey a kv.1 kv.2) (insertKey acc k v)).map Prod.fst)
          = (insertKey acc k v).map Prod.fst ++ ps.map Prod.fst := ih _ hnd' hdisj'
        _ = acc.map Prod.fst ++ (((k, v) :: ps).map Prod.fst) := by
            rw [hkeys]; simp

theorem scan_namesInv (files : List ScanFile)
    (h : (files.map (·.stem)).Nodup) : NamesInv (get_file_dict_list files) := by
  have hlen : (files.map (·.stem)).length ≤ (files.map (·.rel)).length := by
    simp
  have hfst : ((files.map (·.stem)).zip (files.map (·.rel))).map Prod.fst =
      files.map (·.stem) := List.map_fst_zip _ _ hlen
  have hkeys : (dictOfZip (files.map (·.stem)) (files.map (·.rel))).map Prod.fst =
      files.map (·.stem) := by
    have := foldl_insertKey_keys
      ((files.map (·.stem)).zip (files.map (·.rel))) []
      (by rw [hfst]; exact h) (by intro k _ hk; simp at hk)
    rw [hfst] at this
    simpa [dictOfZip] using this
  refine ⟨h, ?_, ?_⟩
  · rw [get_file_dict_list, hkeys]
    exact h
  · intro n
    rw [get_file_dict_list, hkeys]

/-! ## Claim C5 -/

/-- C5 (confirmed): applying the same `created` event twice for the same
asset (same derived name and relative path) is idempotent — the second
application returns the state of the first unchanged, for every prior
state — and, provided the prior state held at most one entry for the
asset in each view (as every scan- or update-built state does, claim
C6), each of the three views holds exactly one entry for it
afterwards. -/
theorem created_event_idempotent (s : CatalogState) (n p : String)
    (hd : (s.1.map Prod.fst).count n ≤ 1) (hl : s.2.1.count p ≤ 1)
    (hn : s.2.2.count n ≤ 1) :
    applyEvent (applyEvent s .created n p) .created n p =
      applyEvent s .created n p ∧
    ((applyEvent s .created n p).1.map Prod.fst).count n = 1 ∧
    (applyEvent s .created n p).2.1.count p = 1 ∧
    (applyEvent s .created n p).2.2.count n = 1 := by
  obtain ⟨d, l, ns⟩ := s
  simp only [applyEvent_created]
  refine ⟨catalogAdd_idem _ n p, ?_, ?_, ?_⟩
  · rw [catalogAdd, map_fst_insertKey]
    by_cases hk : n ∈ d.map Prod.fst
    · have h1 : 1 ≤ (d.map Prod.fst).count n := List.count_pos_iff.mpr hk
      simp [hk, Nat.le_antisymm hd h1]
    · have h0 : (d.map Prod.fst).count n = 0 := List.count_eq_zero.mpr hk
      simp [hk, h0]
  · exact count_after_add_list l p hl
  · exact count_after_add_list ns n hn

theorem created_event_idempotent_witness :
    ((([("m1", "p1")] : List (String × String)).map Prod.fst).count "n2" ≤ 1) ∧
    ((["p1"] : List String).count "p2" ≤ 1) ∧
    ((["m1"] : List String).count "n2" ≤ 1) ∧
    (applyEvent (applyEvent (([("m1", "p1")], ["p1"], ["m1"]) : CatalogState)
        .created "n2" "p2") .created "n2" "p2" =
      applyEvent (([("m1", "p1")], ["p1"], ["m1"]) : CatalogState) .created "n2" "p2" ∧
    ((applyEvent (([("m1", "p1")], ["p1"], ["m1"]) : CatalogState)
        .created "n2" "p2").1.map Prod.fst).count "n2" = 1 ∧
    (applyEvent (([("m1", "p1")], ["p1"], ["m1"]) : CatalogState)
        .created "n2" "p2").2.1.count "p2" = 1 ∧
    (applyEvent (([("m1", "p1")], ["p1"], ["m1"]) : CatalogState)
        .created "n2" "p2").2.2.count "n2" = 1) :=
  ⟨by decide, by decide, by decide,
   created_event_idempotent _ _ _ (by decide) (by decide) (by decide)⟩

/-! ## Claim C6 -/

/-- C6 (corrected): provided the initial directory scan finds files with
pairwise-distinct stems, then after the scan and after any sequence of
created/modified/deleted updates, every name appears at most once in
the flat name list and the names of the name list are exactly the keys
of the name→path map.  The distinct-stems proviso is forced: the
recursive scan keeps every file of every subdirectory, and two files
with one stem put that name twice into the name list (see the
counterexample). -/
theorem scan_and_updates_keep_names_unique (files : List ScanFile)
    (h : (files.map (·.stem)).Nodup)
    (evs : List (FileEvent × String × String)) :
    (∀ n, (applyEvents (get_file_dict_list files) evs).2.2.count n ≤ 1) ∧
    ∀ n, (n ∈ (applyEvents (get_file_dict_list files) evs).2.2 ↔
      n ∈ (applyEvents (get_file_dict_list files) evs).1.map Prod.fst) := by
  have hinv := namesInv_applyEvents evs (scan_namesInv files h)
  exact ⟨fun n => List.nodup_iff_count_le_one.mp hinv.1 n, hinv.2.2⟩

theorem scan_and_updates_keep_names_unique_witness :
    (([⟨"m1", "X/m1.safetensors"⟩] : List ScanFile).map (·.stem)).Nodup ∧
    ((∀ n, (applyEvents (get_file_dict_list [⟨"m1", "X/m1.safetensors"⟩])
        [(.created, "n2", "X/n2.safetensors"), (.deleted, "m1", "X/m1.safetensors")]).2.2.count n ≤ 1) ∧
    ∀ n, (n ∈ (applyEvents (get_file_dict_list [⟨"m1", "X/m1.safetensors"⟩])
        [(.created, "n2", "X/n2.safetensors"), (.deleted, "m1", "X/m1.safetensors")]).2.2 ↔
      n ∈ (applyEvents (get_file_dict_list [⟨"m1", "X/m1.safetensors"⟩])
        [(.created, "n2", "X/n2.safetensors"), (.deleted, "m1", "X/m1.safetensors")]).1.map Prod.fst)) :=
  ⟨by decide,
   scan_and_updates_keep_names_unique _ (by decide) _⟩

/-- C6 counterexample: the recursive scan of two files `a/x.safetensors`
and `b/x.safetensors` (one stem `x` in two subdirectories) puts the
name `x` twice into the flat name list, violating the claim's
"never duplicated in the name index" for the state right after the
initial scan. -/
theorem scan_duplicate_stems_duplicate_name :
    ¬((get_file_dict_list
        [⟨"x", "a/x.safetensors"⟩, ⟨"x", "b/x.safetensors"⟩]).2.2.count "x" ≤ 1) := by
  decide

/-! ## C7 supporting lemmas: cleanup-pass idempotence -/

theorem filterMap_id_of {α : Type} (f : α → Option α) :
    ∀ l : List α, (∀ a ∈ l, f a = some a) → l.filterMap f = l := by
  intro l
  induction l with
  | nil => intro _; rfl
  | cons x xs ih =>
      intro h
      rw [List.filterMap_cons, h x (by simp)]
      rw [ih fun a ha => h a (by simp [ha])]

theorem filterLoras_idem (names : List String) (v l : PyVal)
    (h : filterLoras names v = some l) : filterLoras names l = some l := by
  cases v with
  | dict m =>
      simp only [filterLoras] at h
      by_cases hm : (m.filter fun kv => names.contains kv.1).isEmpty
      · rw [if_pos hm] at h
        exact absurd h (by simp)
      · rw [if_neg hm] at h
        obtain rfl := Option.some_injective _ h
        have hself : ((m.filter fun kv => names.contains kv.1).filter
            fun kv => names.contains kv.1) = m.filter fun kv => names.contains kv.1 :=
          List.filter_eq_self.mpr fun a ha => (List.mem_filter.mp ha).2
        simp only [filterLoras, hself]
        rw [if_neg hm]
  | list xs =>
      simp only [filterLoras] at h
      by_cases hx : (xs.filter fun x => pyMemStr x names).isEmpty
      · rw [if_pos hx] at h
        exact absurd h (by simp)
      · rw [if_neg hx] at h
        obtain rfl := Option.some_injective _ h
        have hself : ((xs.filter fun x => pyMemStr x names).filter
            fun x => pyMemStr x names) = xs.filter fun x => pyMemStr x names :=
          List.filter_eq_self.mpr fun a ha => (List.mem_filter.mp ha).2
        simp only [filterLoras, hself]
        rw [if_neg hx]
  | str s =>
      simp only [filterLoras] at h
      by_cases hs : (names.contains s && !(s == "")) = true
      · rw [if_pos hs] at h
        obtain rfl := Option.some_injective _ h
        simp only [filterLoras]
        rw [if_pos hs]
      · rw [if_neg hs] at h
        exact absurd h (by simp)
  | none => exact absurd h (by simp [filterLoras])
  | bool b => exact absurd h (by simp [filterLoras])
  | int n => exact absurd h (by simp [filterLoras])
  | float q => exact absurd h (by simp [filterLoras])

theorem cleanCand_idem (names : List String) (c c' : Cand)
    (h : cleanCand names c = some c') : cleanCand names c' = some c' := by
  by_cases hg : (!(truthy (c.weight.getD .none) || truthy (c.per.getD .none))) = true
  · rw [cleanCand, if_pos hg] at h
    exact absurd h (by simp)
  · rw [cleanCand, if_neg hg] at h
    cases hf : filterLoras names (c.loras.getD (.dict [])) with
    | none =>
        rw [hf] at h
        exact absurd h (by simp)
    | some l =>
        rw [hf] at h
        simp only [Option.some.injEq] at h
        subst h
        have hf' : filterLoras names l = some l := filterLoras_idem names _ _ hf
        rw [cleanCand]
        rw [if_neg (by simpa using hg)]
        simp [hf']

theorem cleanEntry_stable (names : List String) (a kv : String × WLEntry)
    (h : cleanEntry names a = some kv) : cleanEntry names kv = some kv := by
  obtain ⟨k, e⟩ := a
  cases e with
  | other v =>
      simp only [cleanEntry] at h
      obtain rfl := Option.some_injective _ h
      rfl
  | rule r =>
      simp only [cleanEntry] at h
      by_cases hd : (r.dic.filterMap fun kc =>
          (cleanCand names kc.2).map fun c => (kc.1, c)).isEmpty
      · rw [if_pos hd] at h
        exact absurd h (by simp)
      · rw [if_neg hd] at h
        obtain rfl := Option.some_injective _ h
        have hD : ((r.dic.filterMap fun kc =>
            (cleanCand names kc.2).map fun c => (kc.1, c)).filterMap fun kc =>
            (cleanCand names kc.2).map fun c => (kc.1, c)) =
            r.dic.filterMap fun kc => (cleanCand names kc.2).map fun c => (kc.1, c) := by
          apply filterMap_id_of
          intro kc hkc
          obtain ⟨kc0, _h0, hf⟩ := List.mem_filterMap.mp hkc
          cases hcc : cleanCand names kc0.2 with
          | none =>
              rw [hcc] at hf
              exact absurd hf (by simp)
          | some c1 =>
              rw [hcc] at hf
              simp only [Option.map_some', Option.some.injEq] at hf
              obtain rfl := hf
              simp [cleanCand_idem names _ _ hcc]
        simp only [cleanEntry, hD]
        rw [if_neg hd]

/-! ## Claim C7 -/

/-- C7 (confirmed): the OverlayRule cleanup pass is idempotent — running
`_clean_weight_lora` twice in succession with the same auxiliary
asset-name list yields output identical to running it once, for every
structure. -/
theorem clean_weight_lora_idempotent (names : List String)
    (wl : List (String × WLEntry)) :
    clean_weight_lora names (clean_weight_lora names wl) =
      clean_weight_lora names wl := by
  apply filterMap_id_of
  intro kv hkv
  obtain ⟨a, _ha, hf⟩ := List.mem_filterMap.mp hkv
  exact cleanEntry_stable names a kv hf

/-! ## C9 supporting lemmas: Python `min` / `max` folds -/

theorem foldMin_num (xs : List PyVal) :
    ∀ x : PyVal, pyIsNum x = true → (∀ y ∈ xs, pyIsNum y = true) →
    ∃ lo, (xs.foldlM (fun cur y => do
        let lt ← pyLt y cur
        pure (if lt then y else cur)) x : Except Err PyVal) = .ok lo ∧
      (lo = x ∨ lo ∈ xs) ∧ pyIsNum lo = true ∧ toQ lo ≤ toQ x ∧
      ∀ y ∈ xs, toQ lo ≤ toQ y := by
  induction xs with
  | nil =>
      intro x hx _
      exact ⟨x, rfl, Or.inl rfl, hx, le_refl _, by simp⟩
  | cons y ys ih =>
      intro x hx hall
      have hy : pyIsNum y = true := hall y (by simp)
      have hstep : pyLt y x = .ok (decide (toQ y < toQ x)) := by
        simp [pyLt, hy, hx]
      have hx'num : pyIsNum (if toQ y < toQ x then y else x) = true := by
        by_cases hc : toQ y < toQ x <;> simp [hc, hx, hy]
      obtain ⟨lo, hfold, hmem, hnum, hle, hax⟩ :=
        ih (if toQ y < toQ x then y else x) hx'num fun z hz => hall z (by simp [hz])
      refine ⟨lo, ?_, ?_, hnum, ?_, ?_⟩
      · rw [List.foldlM_cons, hstep]
        simpa [Except.bind] using hfold
      · rcases hmem with h | h
        · by_cases hc : toQ y < toQ x
          · refine Or.inr ?_
            rw [h, if_pos hc]
            exact List.mem_cons_self _ _
          · exact Or.inl (by rw [h, if_neg hc])
        · exact Or.inr (List.mem_cons_of_mem _ h)
      · by_cases hc : toQ y < toQ x
        · rw [if_pos hc] at hle
          exact le_trans hle (le_of_lt hc)
        · rwa [if_neg hc] at hle
      · intro z hz
        rcases List.mem_cons.mp hz with h' | hz'
        · by_cases hc : toQ y < toQ x
          · rw [if_pos hc] at hle
            rw [h']
            exact hle
          · rw [if_neg hc] at hle
            rw [h']
            exact le_trans hle (not_lt.mp hc)
        · exact hax z hz'

theorem foldMax_num (xs : List PyVal) :
    ∀ x : PyVal, pyIsNum x = true → (∀ y ∈ xs, pyIsNum y = true) →
    ∃ hi, (xs.foldlM (fun cur y => do
        let gt ← pyGt y cur
        pure (if gt then y else cur)) x : Except Err PyVal) = .ok hi ∧
      (hi = x ∨ hi ∈ xs) ∧ pyIsNum hi = true ∧ toQ x ≤ toQ hi ∧
      ∀ y ∈ xs, toQ y ≤ toQ hi := by
  induction xs with
  | nil =>
      intro x hx _
      exact ⟨x, rfl, Or.inl rfl, hx, le_refl _, by simp⟩
  | cons y ys ih =>
      intro x hx hall
      have hy : pyIsNum y = true := hall y (by simp)
      have hstep : pyGt y x = .ok (decide (toQ x < toQ y)) := by
        simp [pyGt, hy, hx]
      have hx'num : pyIsNum (if toQ x < toQ y then y else x) = true := by
        by_cases hc : toQ x < toQ y <;> simp [hc, hx, hy]
      obtain ⟨hi, hfold, hmem, hnum, hle, hax⟩ :=
        ih (if toQ x < toQ y then y else x) hx'num fun z hz => hall z (by simp [hz])
      refine ⟨hi, ?_, ?_, hnum, ?_, ?_⟩
      · rw [List.foldlM_cons, hstep]
        simpa [Except.bind] using hfold
      · rcases hmem with h | h
        · by_cases hc : toQ x < toQ y
          · refine Or.inr ?_
            rw [h, if_pos hc]
            exact List.mem_cons_self _ _
          · exact Or.inl (by rw [h, if_neg hc])
        · exact Or.inr (List.mem_cons_of_mem _ h)
      · by_cases hc : toQ x < toQ y
        · rw [if_pos hc] at hle
          exact le_trans (le_of_lt hc) hle
        · rwa [if_neg hc] at hle
      · intro z hz
        rcases List.mem_cons.mp hz with h' | hz'
        · by_cases hc : toQ x < toQ y
          · rw [if_pos hc] at hle
            rw [h']
            exact hle
          · rw [if_neg hc] at hle
            rw [h']
            exact le_trans (not_lt.mp hc) hle
        · exact hax z hz'

theorem pyLt_typeError (a b : PyVal)
    (hnotnum : ¬((pyIsNum a && pyIsNum b) = true))
    (hnotstr : ∀ s t, ¬(a = .str s ∧ b = .str t)) :
    pyLt a b = .error .typeError := by
  cases a <;> cases b <;>
    first
      | exact absurd ⟨rfl, rfl⟩ (hnotstr _ _)
      | rfl
      | exact absurd (by simp [pyIsNum, pyIsIntLike, pyIsFloat]) hnotnum

/-- A number and a non-number in the same `min` fold always reach an
incomparable pair and raise `TypeError` (strings only compare with
strings, numbers only with numbers). -/
theorem foldMin_mixed_err (xs : List PyVal) :
    ∀ x : PyVal,
    ((pyIsNum x = true ∧ ∃ y ∈ xs, pyIsNum y = false) ∨
     (pyIsNum x = false ∧ ∃ y ∈ xs, pyIsNum y = true)) →
    (xs.foldlM (fun cur y => do
        let lt ← pyLt y cur
        pure (if lt then y else cur)) x : Except Err PyVal) = .error .typeError := by
  induction xs with
  | nil =>
      intro x h
      rcases h with ⟨_, y, hy, _⟩ | ⟨_, y, hy, _⟩ <;> exact absurd hy (by simp)
  | cons y ys ih =>
      intro x h
      have hnumNotStr : ∀ v : PyVal, pyIsNum v = true → ∀ s, v ≠ .str s := by
        intro v hv s he
        rw [he] at hv
        simp [pyIsNum, pyIsIntLike, pyIsFloat] at hv
      rcases h with ⟨hx, z, hz, hznum⟩ | ⟨hx, z, hz, hznum⟩
      · by_cases hy : pyIsNum y = true
        · have hzys : z ∈ ys := by
            rcases List.mem_cons.mp hz with h' | h'
            · rw [h'] at hznum
              exact absurd hy (by simp [hznum])
            · exact h'
          have hstep : pyLt y x = .ok (decide (toQ y < toQ x)) := by
            simp [pyLt, hy, hx]
          rw [List.foldlM_cons, hstep]
          have hx'num : pyIsNum (if toQ y < toQ x then y else x) = true := by
            by_cases hc : toQ y < toQ x <;> simp [hc, hx, hy]
          have := ih (if toQ y < toQ x then y else x)
            (Or.inl ⟨hx'num, z, hzys, hznum⟩)
          simpa [Except.bind] using this
        · have hstep : pyLt y x = .error .typeError := by
            apply pyLt_typeError
            · simp [hy]
            · intro s t ⟨_, hxt⟩
              exact hnumNotStr x hx t hxt
          rw [List.foldlM_cons, hstep]
          rfl
      · by_cases hy : pyIsNum y = true
        · have hstep : pyLt y x = .error .typeError := by
            apply pyLt_typeError
            · simp [hx]
            · intro s t ⟨hys, _⟩
              exact hnumNotStr y hy s hys
          rw [List.foldlM_cons, hstep]
          rfl
        · have hzys : z ∈ ys := by
            rcases List.mem_cons.mp hz with h' | h'
            · rw [h'] at hznum
              exact absurd hznum (by simp [hy])
            · exact h'
          by_cases hstr : (∃ s, y = .str s) ∧ ∃ t, x = .str t
          · obtain ⟨⟨s, rfl⟩, ⟨t, rfl⟩⟩ := hstr
            have hstep : pyLt (.str s) (.str t) = .ok (decide (s < t)) := rfl
            rw [List.foldlM_cons, hstep]
            have hx'num : pyIsNum (if decide (s < t) then PyVal.str s else PyVal.str t) = false := by
              by_cases hc : (decide (s < t)) = true
              · rw [if_pos hc]
                rfl
              · rw [if_neg hc]
                rfl
            have := ih (if decide (s < t) then PyVal.str s else PyVal.str t)
              (Or.inr ⟨hx'num, z, hzys, hznum⟩)
            simpa [Except.bind] using this
          · have hstep : pyLt y x = .error .typeError := by
              apply pyLt_typeError
              · simp [hy]
              · intro s t ⟨hys, hxt⟩
                exact hstr ⟨⟨s, hys⟩, ⟨t, hxt⟩⟩
            rw [List.foldlM_cons, hstep]
            rfl

theorem pyIsIntLike_isNum (x : PyVal) (h : pyIsIntLike x = true) :
    pyIsNum x = true := by
  simp [pyIsNum, h]

theorem pyIsFloat_isNum (x : PyVal) (h : pyIsFloat x = true) :
    pyIsNum x = true := by
  simp [pyIsNum, h]

theorem pyIsIntLike_not_float (x : PyVal) (h : pyIsIntLike x = true) :
    pyIsFloat x = false := by
  cases x <;> simp_all [pyIsIntLike, pyIsFloat]

theorem toQ_intLike (x : PyVal) (h : pyIsIntLike x = true) :
    toQ x = (toZ x : ℚ) := by
  cases x with
  | bool b => cases b <;> simp [toQ, toZ]
  | int n => simp [toQ, toZ]
  | none => simp [pyIsIntLike] at h
  | float q => simp [pyIsIntLike] at h
  | str s => simp [pyIsIntLike] at h
  | list xs => simp [pyIsIntLike] at h
  | dict m => simp [pyIsIntLike] at h

/-! ## Claim C9 -/

/-- C9 (corrected): `random_min_max` returns a scalar argument
unchanged; for an all-numeric collection containing a float it returns
a uniform real number in the closed interval between the collection's
minimum and maximum; for a nonempty collection of integers (bools
included, as in Python) it returns a uniform integer in
`[min(a,b), max(a,b)]` inclusive; and for a collection containing a
non-numeric element it always fails rather than returning a value —
with the explicit `ValueError` (the spec's `InvalidRange`) when no
float is present, but with a `TypeError` from the min/max comparison
when a float is present (this last error class is what the
counterexample forces the claim to weaken). -/
theorem random_min_max_range_behaviour :
    (∀ (v : PyVal) (rI : ℕ) (rF : ℚ), v.isList = false →
      random_min_max v rI rF = .ok v) ∧
    (∀ (xs : List PyVal) (rI : ℕ) (rF : ℚ), 0 ≤ rF → rF ≤ 1 →
      (∀ x ∈ xs, pyIsNum x = true) → xs.any pyIsFloat = true →
      ∃ q lo hi, lo ∈ xs ∧ hi ∈ xs ∧
        (∀ x ∈ xs, toQ lo ≤ toQ x ∧ toQ x ≤ toQ hi) ∧
        random_min_max (.list xs) rI rF = .ok (.float q) ∧
        toQ lo ≤ q ∧ q ≤ toQ hi) ∧
    (∀ (xs : List PyVal) (rI : ℕ) (rF : ℚ), xs ≠ [] →
      (∀ x ∈ xs, pyIsIntLike x = true) →
      ∃ n lo hi, lo ∈ xs ∧ hi ∈ xs ∧
        (∀ x ∈ xs, toZ lo ≤ toZ x ∧ toZ x ≤ toZ hi) ∧
        random_min_max (.list xs) rI rF = .ok (.int n) ∧
        toZ lo ≤ n ∧ n ≤ toZ hi) ∧
    (∀ (xs : List PyVal) (rI : ℕ) (rF : ℚ), (∃ x ∈ xs, pyIsNum x = false) →
      (xs.any pyIsFloat = false →
        random_min_max (.list xs) rI rF = .error .valueError) ∧
      (xs.any pyIsFloat = true →
        random_min_max (.list xs) rI rF = .error .typeError)) := by
  refine ⟨?_, ?_, ?_, ?_⟩
  · intro v rI rF hv
    cases v <;> first | rfl | simp [PyVal.isList] at hv
  · intro xs rI rF hr0 hr1 hall hfl
    cases xs with
    | nil => simp at hfl
    | cons x rest =>
        have hx : pyIsNum x = true := hall x (by simp)
        have hrest : ∀ y ∈ rest, pyIsNum y = true :=
          fun y hy => hall y (by simp [hy])
        obtain ⟨lo, hminf, hlomem, hlonum, hlox, hloall⟩ := foldMin_num rest x hx hrest
        obtain ⟨hi, hmaxf, himem, hinum, hxhi, hiall⟩ := foldMax_num rest x hx hrest
        have hmin : pyMinL (x :: rest) = .ok lo := hminf
        have hmax : pyMaxL (x :: rest) = .ok hi := hmaxf
        have hlomem' : lo ∈ x :: rest := by
          rcases hlomem with h | h
          · rw [h]; exact List.mem_cons_self _ _
          · exact List.mem_cons_of_mem _ h
        have himem' : hi ∈ x :: rest := by
          rcases himem with h | h
          · rw [h]; exact List.mem_cons_self _ _
          · exact List.mem_cons_of_mem _ h
        have hbounds : ∀ y ∈ x :: rest, toQ lo ≤ toQ y ∧ toQ y ≤ toQ hi := by
          intro y hy
          rcases List.mem_cons.mp hy with h | h
          · exact ⟨h ▸ hlox, h ▸ hxhi⟩
          · exact ⟨hloall y h, hiall y h⟩
        have hlohi : toQ lo ≤ toQ hi := le_trans hlox hxhi
        refine ⟨toQ lo + (toQ hi - toQ lo) * rF, lo, hi, hlomem', himem', hbounds, ?_, ?_, ?_⟩
        · simp only [random_min_max, hfl, if_true]
          rw [hmin, hmax]
          rfl
        · nlinarith
        · nlinarith
  · intro xs rI rF hne hint
    cases xs with
    | nil => exact absurd rfl hne
    | cons x rest =>
        have hx : pyIsNum x = true := pyIsIntLike_isNum x (hint x (by simp))
        have hrest : ∀ y ∈ rest, pyIsNum y = true :=
          fun y hy => pyIsIntLike_isNum y (hint y (by simp [hy]))
        obtain ⟨lo, hminf, hlomem, _hlonum, hlox, hloall⟩ := foldMin_num rest x hx hrest
        obtain ⟨hi, hmaxf, himem, _hinum, hxhi, hiall⟩ := foldMax_num rest x hx hrest
        have hmin : pyMinL (x :: rest) = .ok lo := hminf
        have hmax : pyMaxL (x :: rest) = .ok hi := hmaxf
        have hlomem' : lo ∈ x :: rest := by
          rcases hlomem with h | h
          · rw [h]; exact List.mem_cons_self _ _
          · exact List.mem_cons_of_mem _ h
        have himem' : hi ∈ x :: rest := by
          rcases himem with h | h
          · rw [h]; exact List.mem_cons_self _ _
          · exact List.mem_cons_of_mem _ h
        have hloint : pyIsIntLike lo = true := hint lo hlomem'
        have hiint : pyIsIntLike hi = true := hint hi himem'
        have hcast : ∀ y ∈ x :: rest, toZ lo ≤ toZ y ∧ toZ y ≤ toZ hi := by
          intro y hy
          have h1 : toQ lo ≤ toQ y := by
            rcases List.mem_cons.mp hy with h | h
            · exact h ▸ hlox
            · exact hloall y h
          have h2 : toQ y ≤ toQ hi := by
            rcases List.mem_cons.mp hy with h | h
            · exact h ▸ hxhi
            · exact hiall y h
          rw [toQ_intLike lo hloint, toQ_intLike y (hint y hy)] at h1
          rw [toQ_intLike y (hint y hy), toQ_intLike hi hiint] at h2
          exact ⟨Int.cast_le.mp h1, Int.cast_le.mp h2⟩
        have hlohiZ : toZ lo ≤ toZ hi :=
          le_trans (hcast x (by simp)).1 (hcast x (by simp)).2
        have hmpos : (0 : ℤ) < toZ hi - toZ lo + 1 := by omega
        have hnofl : (x :: rest).any pyIsFloat = false := by
          rw [List.any_eq_false]
          intro y hy
          rw [pyIsIntLike_not_float y (hint y hy)]
          simp
        have hallint : (x :: rest).all pyIsIntLike = true :=
          List.all_eq_true.mpr hint
        refine ⟨toZ lo + (rI : ℤ) % (toZ hi - toZ lo + 1), lo, hi, hlomem', himem',
          hcast, ?_, ?_, ?_⟩
        · simp only [random_min_max, hnofl, Bool.false_eq_true, if_false, hallint, if_true]
          rw [hmin, hmax]
          rfl
        · have := Int.emod_nonneg (rI : ℤ) (by omega : toZ hi - toZ lo + 1 ≠ 0)
          omega
        · have := Int.emod_lt_of_pos (rI : ℤ) hmpos
          omega
  · intro xs rI rF hnn
    obtain ⟨x0, hx0mem, hx0⟩ := hnn
    constructor
    · intro hnofl
      have hallint : xs.all pyIsIntLike = false := by
        rw [Bool.eq_false_iff]
        intro hall
        have := List.all_eq_true.mp hall x0 hx0mem
        rw [pyIsIntLike_isNum x0 this] at hx0
        exact absurd hx0 (by simp)
      cases xs with
      | nil => simp at hx0mem
      | cons x rest =>
          simp only [random_min_max, hnofl, Bool.false_eq_true, if_false,
            hallint, if_false]
    · intro hfl
      cases xs with
      | nil => simp at hx0mem
      | cons x rest =>
          have hminerr : pyMinL (x :: rest) = .error .typeError := by
            apply foldMin_mixed_err
            by_cases hx : pyIsNum x = true
            · refine Or.inl ⟨hx, x0, ?_, hx0⟩
              rcases List.mem_cons.mp hx0mem with h | h
              · rw [h] at hx0
                rw [hx0] at hx
                exact absurd hx (by simp)
              · exact h
            · obtain ⟨xf, hxfmem, hxf⟩ := List.any_eq_true.mp hfl
              refine Or.inr ⟨by simpa using hx, xf, ?_, pyIsFloat_isNum xf hxf⟩
              rcases List.mem_cons.mp hxfmem with h | h
              · rw [h] at hxf
                rw [pyIsNum, hxf] at hx
                simp at hx
              · exact h
          simp only [random_min_max, hfl, if_true]
          rw [hminerr]
          rfl

theorem random_min_max_range_behaviour_witness :
    (random_min_max (.str "a") 0 0 = .ok (.str "a")) ∧
    (∃ q lo hi, lo ∈ [PyVal.float 0, PyVal.float 1] ∧
      hi ∈ [PyVal.float 0, PyVal.float 1] ∧
      (∀ x ∈ [PyVal.float 0, PyVal.float 1], toQ lo ≤ toQ x ∧ toQ x ≤ toQ hi) ∧
      random_min_max (.list [PyVal.float 0, PyVal.float 1]) 0 (1/2) = .ok (.float q) ∧
      toQ lo ≤ q ∧ q ≤ toQ hi) ∧
    (∃ n lo hi, lo ∈ [PyVal.int 2, PyVal.int 5] ∧ hi ∈ [PyVal.int 2, PyVal.int 5] ∧
      (∀ x ∈ [PyVal.int 2, PyVal.int 5], toZ lo ≤ toZ x ∧ toZ x ≤ toZ hi) ∧
      random_min_max (.list [PyVal.int 2, PyVal.int 5]) 7 0 = .ok (.int n) ∧
      toZ lo ≤ n ∧ n ≤ toZ hi) ∧
    (random_min_max (.list [PyVal.str "a", PyVal.int 1]) 0 0 = .error .valueError) :=
  ⟨random_min_max_range_behaviour.1 (.str "a") 0 0 rfl,
   random_min_max_range_behaviour.2.1 [PyVal.float 0, PyVal.float 1] 0 (1/2)
     (by norm_num) (by norm_num) (by decide) (by decide),
   random_min_max_range_behaviour.2.2.1 [PyVal.int 2, PyVal.int 5] 7 0
     (by simp) (by decide),
   (random_min_max_range_behaviour.2.2.2 [PyVal.str "a", PyVal.int 1] 0 0
     ⟨PyVal.str "a", by simp, by decide⟩).1 (by decide)⟩

/-- C9 counterexample: for the collection `[1.0, "a"]` — a float
alongside a non-numeric element — the source fails with `TypeError`
(raised by `min(v)` comparing `"a" < 1.0`), not with the explicit
`ValueError` the spec's `InvalidRange` names; the claim's "fails with
an InvalidRange error" is therefore false for this input, though it
does fail rather than return. -/
theorem random_min_max_mixed_float_typeerror :
    random_min_max (.list [PyVal.float 1, PyVal.str "a"]) 0 0 =
      .error .typeError ∧ Err.typeError ≠ Err.valueError :=
  ⟨rfl, by decide⟩

/-! ## C4 supporting lemmas: workflow parameter resolution -/

/-- `resolveParam` is exactly the bind chain of its stages (used to peel
the pipeline apart). -/
theorem resolveParam_as_binds (sw : List (String × PyVal)) (node k : String)
    (v0 : PyVal) (funcOpt : Option (PyVal → String → PyVal))
    (randomFunc : Option (PyVal → Except Err PyVal))
    (oSI : ℕ) (oSF : ℚ) (oMI : ℕ) (oMF : ℚ) (oXI : ℕ) (oXF : ℚ) :
    resolveParam sw node k v0 funcOpt randomFunc oSI oSF oMI oMF oXI oXF =
      ((match randomFunc with
        | some rf => rf (match funcOpt with
            | some f => f (getNestedP sw ["workflow", node, k] v0) k
            | Option.none => getNestedP sw ["workflow", node, k] v0)
        | Option.none => pure (match funcOpt with
            | some f => f (getNestedP sw ["workflow", node, k] v0) k
            | Option.none => getNestedP sw ["workflow", node, k] v0)) >>= fun v1 =>
       applyScaleStep sw node k oSI oSF v1 >>= fun v2 =>
       applyMinStep sw node k oMI oMF v2 >>= fun v3 =>
       applyMaxStep sw node k oXI oXF v3) := by
  cases randomFunc <;> cases funcOpt <;> rfl

theorem except_bind_ok {e_ty a_ty b_ty : Type} (e : Except e_ty a_ty)
    (f : a_ty → Except e_ty b_ty) (c : b_ty) (h : (e >>= f) = .ok c) :
    ∃ b, e = .ok b ∧ f b = .ok c := by
  cases e with
  | error err =>
      have h' : (Except.error err : Except e_ty b_ty) = .ok c := h
      exact absurd h' (by simp)
  | ok b => exact ⟨b, rfl, h⟩

theorem pyGt_num (a b : PyVal) (ha : pyIsNum a = true) (hb : pyIsNum b = true) :
    pyGt a b = .ok (decide (toQ b < toQ a)) := by
  cases a <;> cases b <;>
    first
      | rfl
      | simp [pyIsNum, pyIsIntLike, pyIsFloat] at ha hb

theorem pyLt_num (a b : PyVal) (ha : pyIsNum a = true) (hb : pyIsNum b = true) :
    pyLt a b = .ok (decide (toQ a < toQ b)) := by
  cases a <;> cases b <;>
    first
      | rfl
      | simp [pyIsNum, pyIsIntLike, pyIsFloat] at ha hb

theorem pyGt_float_nonnum (q : ℚ) (v : PyVal) (hv : pyIsNum v = false) :
    pyGt (.float q) v = .error .typeError := by
  cases v <;>
    first
      | rfl
      | simp [pyIsNum, pyIsIntLike, pyIsFloat] at hv

theorem applyMinStep_half_floor (sw : List (String × PyVal)) (node k : String)
    (oI : ℕ) (oF : ℚ) (v : PyVal)
    (hmin : getNestedP sw ["workflow_min", node, k] .none = .float (1/2)) :
    ∀ v3, applyMinStep sw node k oI oF v = .ok v3 →
      pyIsNum v3 = true ∧ 1/2 ≤ toQ v3 := by
  intro v3 h
  rw [applyMinStep, hmin] at h
  rw [if_pos (by norm_num [truthy])] at h
  replace h : pyMax2 v (.float (1/2)) = .ok v3 := h
  by_cases hv : pyIsNum v = true
  · have hcmp : pyGt (.float (1/2)) v = .ok (decide (toQ v < 1/2)) := by
      rw [pyGt_num (PyVal.float (1/2)) v rfl hv]
      norm_num [toQ]
    rw [pyMax2, hcmp] at h
    replace h : (pure (if decide (toQ v < 1/2) then PyVal.float (1/2) else v) :
        Except Err PyVal) = .ok v3 := h
    have hv3 := Except.ok.inj h
    by_cases hc : toQ v < 1/2
    · rw [if_pos (by simpa using hc)] at hv3
      rw [← hv3]
      exact ⟨rfl, by norm_num [toQ]⟩
    · rw [if_neg (by simpa using hc)] at hv3
      rw [← hv3]
      exact ⟨hv, not_lt.mp hc⟩
  · have hcmp : pyGt (.float (1/2)) v = .error .typeError :=
      pyGt_float_nonnum _ v (by simpa using hv)
    rw [pyMax2, hcmp] at h
    replace h : (Except.error Err.typeError : Except Err PyVal) = .ok v3 := h
    exact absurd h (by simp)

theorem applyMaxStep_keeps_floor (sw : List (String × PyVal)) (node k : String)
    (oI : ℕ) (oF : ℚ) (v : PyVal) (hv : pyIsNum v = true) (hvb : 1/2 ≤ toQ v)
    (hmax : truthy (getNestedP sw ["workflow_max", node, k] .none) = true →
      ∀ r, random_min_max (getNestedP sw ["workflow_max", node, k] .none) oI oF = .ok r →
        pyIsNum r = true ∧ 1/2 ≤ toQ r) :
    ∀ v', applyMaxStep sw node k oI oF v = .ok v' →
      pyIsNum v' = true ∧ 1/2 ≤ toQ v' := by
  intro v' h
  rw [applyMaxStep] at h
  by_cases ht : truthy (getNestedP sw ["workflow_max", node, k] .none) = true
  · rw [if_pos ht] at h
    cases hr : random_min_max (getNestedP sw ["workflow_max", node, k] .none) oI oF with
    | error e =>
        rw [hr] at h
        replace h : (Except.error e : Except Err PyVal) = .ok v' := h
        exact absurd h (by simp)
    | ok r =>
        rw [hr] at h
        obtain ⟨hrnum, hrb⟩ := hmax ht r hr
        replace h : pyMin2 v r = .ok v' := h
        have hcmp : pyLt r v = .ok (decide (toQ r < toQ v)) :=
          pyLt_num r v hrnum hv
        rw [pyMin2, hcmp] at h
        replace h : (pure (if decide (toQ r < toQ v) then r else v) :
            Except Err PyVal) = .ok v' := h
        have hv' := Except.ok.inj h
        by_cases hc : toQ r < toQ v
        · rw [if_pos (by simpa using hc)] at hv'
          rw [← hv']
          exact ⟨hrnum, hrb⟩
        · rw [if_neg (by simpa using hc)] at hv'
          rw [← hv']
          exact ⟨hv, hvb⟩
  · rw [if_neg ht] at h
    replace h : (pure v : Except Err PyVal) = .ok v' := h
    obtain rfl := Except.ok.inj h
    exact ⟨hv, hvb⟩

/-! ## Claim C4 -/

/-- C4 (confirmed): in the per-parameter resolution of
`set_workflow_func_random2`, when the configured `workflow_min` for the
node+parameter is the scalar `0.5` and any configured `workflow_max`
only ever resolves to a numeric value `≥ 0.5` ("no smaller max"), every
resolution that completes writes a numeric value `≥ 0.5` — whatever the
template value (e.g. the range `[0.0, 1.0]`), override, callback and
random draws were; and the numeric post-processors are applied in the
fixed source order scale, then min, then max (the resolution is their
bind chain). -/
theorem workflow_min_floor_and_fixed_order (sw : List (String × PyVal))
    (node k : String) (v0 : PyVal) (funcOpt : Option (PyVal → String → PyVal))
    (randomFunc : Option (PyVal → Except Err PyVal))
    (oSI : ℕ) (oSF : ℚ) (oMI : ℕ) (oMF : ℚ) (oXI : ℕ) (oXF : ℚ)
    (hmin : getNestedP sw ["workflow_min", node, k] .none = .float (1/2))
    (hmax : truthy (getNestedP sw ["workflow_max", node, k] .none) = true →
      ∀ r, random_min_max (getNestedP sw ["workflow_max", node, k] .none) oXI oXF = .ok r →
        pyIsNum r = true ∧ 1/2 ≤ toQ r) :
    (∀ v', resolveParam sw node k v0 funcOpt randomFunc oSI oSF oMI oMF oXI oXF = .ok v' →
      pyIsNum v' = true ∧ 1/2 ≤ toQ v') ∧
    resolveParam sw node k v0 funcOpt randomFunc oSI oSF oMI oMF oXI oXF =
      ((match randomFunc with
        | some rf => rf (match funcOpt with
            | some f => f (getNestedP sw ["workflow", node, k] v0) k
            | Option.none => getNestedP sw ["workflow", node, k] v0)
        | Option.none => pure (match funcOpt with
            | some f => f (getNestedP sw ["workflow", node, k] v0) k
            | Option.none => getNestedP sw ["workflow", node, k] v0)) >>= fun v1 =>
       applyScaleStep sw node k oSI oSF v1 >>= fun v2 =>
       applyMinStep sw node k oMI oMF v2 >>= fun v3 =>
       applyMaxStep sw node k oXI oXF v3) := by
  constructor
  · intro v' h
    rw [resolveParam_as_binds] at h
    obtain ⟨v1, _h1, h⟩ := except_bind_ok _ _ _ h
    obtain ⟨v2, _h2, h⟩ := except_bind_ok _ _ _ h
    obtain ⟨v3, h3, h⟩ := except_bind_ok _ _ _ h
    obtain ⟨h3num, h3b⟩ := applyMinStep_half_floor sw node k oMI oMF v2 hmin v3 h3
    exact applyMaxStep_keeps_floor sw node k oXI oXF v3 h3num h3b hmax v' h
  · exact resolveParam_as_binds sw node k v0 funcOpt randomFunc oSI oSF oMI oMF oXI oXF

theorem workflow_min_floor_and_fixed_order_witness :
    (getNestedP [("workflow_min", PyVal.dict [("KSampler",
        PyVal.dict [("strength", PyVal.float (1/2))])])]
      ["workflow_min", "KSampler", "strength"] PyVal.none = PyVal.float (1/2)) ∧
    (pyIsNum (PyVal.float 1) = true ∧ 1/2 ≤ toQ (PyVal.float 1)) := by
  constructor
  · rfl
  · apply (workflow_min_floor_and_fixed_order
      [("workflow_min", PyVal.dict [("KSampler",
          PyVal.dict [("strength", PyVal.float (1/2))])])]
      "KSampler" "strength" (PyVal.float 1)
      Option.none Option.none 0 0 0 0 0 0
      rfl (fun htr => absurd htr (by decide))).1
    rw [resolveParam_as_binds]
    show (applyScaleStep [("workflow_min", PyVal.dict [("KSampler",
          PyVal.dict [("strength", PyVal.float (1/2))])])]
        "KSampler" "strength" 0 0 (PyVal.float 1) >>= fun v2 =>
      applyMinStep [("workflow_min", PyVal.dict [("KSampler",
          PyVal.dict [("strength", PyVal.float (1/2))])])]
        "KSampler" "strength" 0 0 v2 >>= fun v3 =>
      applyMaxStep [("workflow_min", PyVal.dict [("KSampler",
          PyVal.dict [("strength", PyVal.float (1/2))])])]
        "KSampler" "strength" 0 0 v3) = .ok (PyVal.float 1)
    have h1 : applyScaleStep [("workflow_min", PyVal.dict [("KSampler",
        PyVal.dict [("strength", PyVal.float (1/2))])])]
        "KSampler" "strength" 0 0 (PyVal.float 1) = pure (PyVal.float 1) := rfl
    rw [h1]
    show (applyMinStep [("workflow_min", PyVal.dict [("KSampler",
          PyVal.dict [("strength", PyVal.float (1/2))])])]
        "KSampler" "strength" 0 0 (PyVal.float 1) >>= fun v3 =>
      applyMaxStep [("workflow_min", PyVal.dict [("KSampler",
          PyVal.dict [("strength", PyVal.float (1/2))])])]
        "KSampler" "strength" 0 0 v3) = .ok (PyVal.float 1)
    have h2 : applyMinStep [("workflow_min", PyVal.dict [("KSampler",
        PyVal.dict [("strength", PyVal.float (1/2))])])]
        "KSampler" "strength" 0 0 (PyVal.float 1) = .ok (PyVal.float 1) := by
      rw [applyMinStep]
      have hm : getNestedP [("workflow_min", PyVal.dict [("KSampler",
          PyVal.dict [("strength", PyVal.float (1/2))])])]
          ["workflow_min", "KSampler", "strength"] PyVal.none = PyVal.float (1/2) := rfl
      rw [hm, if_pos (by norm_num [truthy])]
      have hr : random_min_max (PyVal.float (1/2)) 0 0 = .ok (PyVal.float (1/2)) := rfl
      rw [hr]
      show pyMax2 (PyVal.float 1) (PyVal.float (1/2)) = .ok (PyVal.float 1)
      rw [pyMax2, pyGt_num (PyVal.float (1/2)) (PyVal.float 1) rfl rfl]
      norm_num [toQ]
    rw [h2]
    show applyMaxStep [("workflow_min", PyVal.dict [("KSampler",
        PyVal.dict [("strength", PyVal.float (1/2))])])]
        "KSampler" "strength" 0 0 (PyVal.float 1) = .ok (PyVal.float 1)
    rfl

/-! ## C2 supporting lemmas: weight-table build and init order -/

theorem ok_bind {e_ty a_ty b_ty : Type} (x : a_ty) (f : a_ty → Except e_ty b_ty) :
    (Except.ok x >>= f) = f x := rfl

theorem foldl_insert_lookup {α : Type} (names : List String) (f : String → α) :
    ∀ (acc : List (String × α)) (key : String),
      lookupKey (names.foldl (fun a k => insertKey a k (f k)) acc) key =
        if key ∈ names then some (f key) else lookupKey acc key := by
  induction names with
  | nil => intro acc key; simp
  | cons n ns ih =>
      intro acc key
      rw [List.foldl_cons, ih]
      by_cases hk : key ∈ ns
      · rw [if_pos hk, if_pos (List.mem_cons_of_mem _ hk)]
      · rw [if_neg hk, lookupKey_insertKey]
        by_cases hnk : n = key
        · subst hnk
          rw [if_pos (by simp), if_pos (List.mem_cons_self _ _)]
        · rw [if_neg (by simp [hnk])]
          rw [if_neg (by
            intro hc
            rcases List.mem_cons.mp hc with h | h
            · exact hnk h.symm
            · exact hk h)]

theorem set_nested_two_step (ct K : String) (v : PyVal)
    (m m0 : List (String × PyVal)) (hl : lookupKey m ct = some (.dict m0)) :
    set_nested (.dict m) v [ct, K] =
      .ok (.dict (insertKey m ct (.dict (insertKey m0 K v)))) := by
  simp only [set_nested, setNestedGo, hl]
  rfl

theorem insertKey_head (ct : String) (x y : PyVal) :
    insertKey [(ct, x)] ct y = [(ct, y)] := by
  simp [insertKey]

/-- The init prefix stores eleven literal keys under `ct`;
`dicCheckpointYml` is not among them. -/
theorem initPrefixTypeDics_shape (ct : String)
    (ckD ckL ckN chD chL chN loD loL loN wc wf : PyVal) :
    initPrefixTypeDics ct ckD ckL ckN chD chL chN loD loL loN wc wf =
      .ok (.dict [(ct, .dict
        [("CheckpointFileDics", ckD), ("CheckpointFileLists", ckL),
         ("CheckpointFileNames", ckN), ("CharFileDics", chD),
         ("CharFileLists", chL), ("CharFileNames", chN),
         ("LoraFileDics", loD), ("LoraFileLists", loL),
         ("LoraFileNames", loN), ("setupWildcard", wc),
         ("setupWorkflow", wf)])]) := by
  have s1 : set_nested (.dict [(ct, PyVal.dict [])]) ckD [ct, "CheckpointFileDics"] =
      .ok (.dict [(ct, PyVal.dict [("CheckpointFileDics", ckD)])]) := by
    rw [set_nested_two_step ct "CheckpointFileDics" ckD [(ct, PyVal.dict [])] []
      (by simp [lookupKey])]
    rw [insertKey_head]
    rfl
  have s2 : set_nested (.dict [(ct, PyVal.dict [("CheckpointFileDics", ckD)])]) ckL [ct, "CheckpointFileLists"] =
      .ok (.dict [(ct, PyVal.dict [("CheckpointFileDics", ckD), ("CheckpointFileLists", ckL)])]) := by
    rw [set_nested_two_step ct "CheckpointFileLists" ckL [(ct, PyVal.dict [("CheckpointFileDics", ckD)])] [("CheckpointFileDics", ckD)]
      (by simp [lookupKey])]
    rw [insertKey_head]
    rfl
  have s3 : set_nested (.dict [(ct, PyVal.dict [("CheckpointFileDics", ckD), ("CheckpointFileLists", ckL)])]) ckN [ct, "CheckpointFileNames"] =
      .ok (.dict [(ct, PyVal.dict [("CheckpointFileDics", ckD), ("CheckpointFileLists", ckL), ("CheckpointFileNames", ckN)])]) := by
    rw [set_nested_two_step ct "CheckpointFileNames" ckN [(ct, PyVal.dict [("CheckpointFileDics", ckD), ("CheckpointFileLists", ckL)])] [("CheckpointFileDics", ckD), ("CheckpointFileLists", ckL)]
      (by simp [lookupKey])]
    rw [insertKey_head]
    rfl
  have s4 : set_nested (.dict [(ct, PyVal.dict [("CheckpointFileDics", ckD), ("CheckpointFileLists", ckL), ("CheckpointFileNames", ckN)])]) chD [ct, "CharFileDics"] =
      .ok (.dict [(ct, PyVal.dict [("CheckpointFileDics", ckD), ("CheckpointFileLists", ckL), ("CheckpointFileNames", ckN), ("CharFileDics", chD)])]) := by
    rw [set_nested_two_step ct "CharFileDics" chD [(ct, PyVal.dict [("CheckpointFileDics", ckD), ("CheckpointFileLists", ckL), ("CheckpointFileNames", ckN)])] [("CheckpointFileDics", ckD), ("CheckpointFileLists", ckL), ("CheckpointFileNames", ckN)]
      (by simp [lookupKey])]
    rw [insertKey_head]
    rfl
  have s5 : set_nested (.dict [(ct, PyVal.dict [("CheckpointFileDics", ckD), ("CheckpointFileLists", ckL), ("CheckpointFileNames", ckN), ("CharFileDics", chD)])]) chL [ct, "CharFileLists"] =
      .ok (.dict [(ct, PyVal.dict [("CheckpointFileDics", ckD), ("CheckpointFileLists", ckL), ("CheckpointFileNames", ckN), ("CharFileDics", chD), ("CharFileLists", chL)])]) := by
    rw [set_nested_two_step ct "CharFileLists" chL [(ct, PyVal.dict [("CheckpointFileDics", ckD), ("CheckpointFileLists", ckL), ("CheckpointFileNames", ckN), ("CharFileDics", chD)])] [("CheckpointFileDics", ckD), ("CheckpointFileLists", ckL), ("CheckpointFileNames", ckN), ("CharFileDics", chD)]
      (by simp [lookupKey])]
    rw [insertKey_head]
    rfl
  have s6 : set_nested (.dict [(ct, PyVal.dict [("CheckpointFileDics", ckD), ("CheckpointFileLists", ckL), ("CheckpointFileNames", ckN), ("CharFileDics", chD), ("CharFileLists", chL)])]) chN [ct, "CharFileNames"] =
      .ok (.dict [(ct, PyVal.dict [("CheckpointFileDics", ckD), ("CheckpointFileLists", ckL), ("CheckpointFileNames", ckN), ("CharFileDics", chD), ("CharFileLists", chL), ("CharFileNames", chN)])]) := by
    rw [set_nested_two_step ct "CharFileNames" chN [(ct, PyVal.dict [("CheckpointFileDics", ckD), ("CheckpointFileLists", ckL), ("CheckpointFileNames", ckN), ("CharFileDics", chD), ("CharFileLists", chL)])] [("CheckpointFileDics", ckD), ("CheckpointFileLists", ckL), ("CheckpointFileNames", ckN), ("CharFileDics", chD), ("CharFileLists", chL)]
      (by simp [lookupKey])]
    rw [insertKey_head]
    rfl
  have s7 : set_nested (.dict [(ct, PyVal.dict [("CheckpointFileDics", ckD), ("CheckpointFileLists", ckL), ("CheckpointFileNames", ckN), ("CharFileDics", chD), ("CharFileLists", chL), ("CharFileNames", chN)])]) loD [ct, "LoraFileDics"] =
      .ok (.dict [(ct, PyVal.dict [("CheckpointFileDics", ckD), ("CheckpointFileLists", ckL), ("CheckpointFileNames", ckN), ("CharFileDics", chD), ("CharFileLists", chL), ("CharFileNames", chN), ("LoraFileDics", loD)])]) := by
    rw [set_nested_two_step ct "LoraFileDics" loD [(ct, PyVal.dict [("CheckpointFileDics", ckD), ("CheckpointFileLists", ckL), ("CheckpointFileNames", ckN), ("CharFileDics", chD), ("CharFileLists", chL), ("CharFileNames", chN)])] [("CheckpointFileDics", ckD), ("CheckpointFileLists", ckL), ("CheckpointFileNames", ckN), ("CharFileDics", chD), ("CharFileLists", chL), ("CharFileNames", chN)]
      (by simp [lookupKey])]
    rw [insertKey_head]
    rfl
  have s8 : set_nested (.dict [(ct, PyVal.dict [("CheckpointFileDics", ckD), ("CheckpointFileLists", ckL), ("CheckpointFileNames", ckN), ("CharFileDics", chD), ("CharFileLists", chL), ("CharFileNames", chN), ("LoraFileDics", loD)])]) loL [ct, "LoraFileLists"] =
      .ok (.dict [(ct, PyVal.dict [("CheckpointFileDics", ckD), ("CheckpointFileLists", ckL), ("CheckpointFileNames", ckN), ("CharFileDics", chD), ("CharFileLists", chL), ("CharFileNames", chN), ("LoraFileDics", loD), ("LoraFileLists", loL)])]) := by
    rw [set_nested_two_step ct "LoraFileLists" loL [(ct, PyVal.dict [("CheckpointFileDics", ckD), ("CheckpointFileLists", ckL), ("CheckpointFileNames", ckN), ("CharFileDics", chD), ("CharFileLists", chL), ("CharFileNames", chN), ("LoraFileDics", loD)])] [("CheckpointFileDics", ckD), ("CheckpointFileLists", ckL), ("CheckpointFileNames", ckN), ("CharFileDics", chD), ("CharFileLists", chL), ("CharFileNames", chN), ("LoraFileDics", loD)]
      (by simp [lookupKey])]
    rw [insertKey_head]
    rfl
  have s9 : set_nested (.dict [(ct, PyVal.dict [("CheckpointFileDics", ckD), ("CheckpointFileLists", ckL), ("CheckpointFileNames", ckN), ("CharFileDics", chD), ("CharFileLists", chL), ("CharFileNames", chN), ("LoraFileDics", loD), ("LoraFileLists", loL)])]) loN [ct, "LoraFileNames"] =
      .ok (.dict [(ct, PyVal.dict [("CheckpointFileDics", ckD), ("CheckpointFileLists", ckL), ("CheckpointFileNames", ckN), ("CharFileDics", chD), ("CharFileLists", chL), ("CharFileNames", chN), ("LoraFileDics", loD), ("LoraFileLists", loL), ("LoraFileNames", loN)])]) := by
    rw [set_nested_two_step ct "LoraFileNames" loN [(ct, PyVal.dict [("CheckpointFileDics", ckD), ("CheckpointFileLists", ckL), ("CheckpointFileNames", ckN), ("CharFileDics", chD), ("CharFileLists", chL), ("CharFileNames", chN), ("LoraFileDics", loD), ("LoraFileLists", loL)])] [("CheckpointFileDics", ckD), ("CheckpointFileLists", ckL), ("CheckpointFileNames", ckN), ("CharFileDics", chD), ("CharFileLists", chL), ("CharFileNames", chN), ("LoraFileDics", loD), ("LoraFileLists", loL)]
      (by simp [lookupKey])]
    rw [insertKey_head]
    rfl
  have s10 : set_nested (.dict [(ct, PyVal.dict [("CheckpointFileDics", ckD), ("CheckpointFileLists", ckL), ("CheckpointFileNames", ckN), ("CharFileDics", chD), ("CharFileLists", chL), ("CharFileNames", chN), ("LoraFileDics", loD), ("LoraFileLists", loL), ("LoraFileNames", loN)])]) wc [ct, "setupWildcard"] =
      .ok (.dict [(ct, PyVal.dict [("CheckpointFileDics", ckD), ("CheckpointFileLists", ckL), ("CheckpointFileNames", ckN), ("CharFileDics", chD), ("CharFileLists", chL), ("CharFileNames", chN), ("LoraFileDics", loD), ("LoraFileLists", loL), ("LoraFileNames", loN), ("setupWildcard", wc)])]) := by
    rw [set_nested_two_step ct "setupWildcard" wc [(ct, PyVal.dict [("CheckpointFileDics", ckD), ("CheckpointFileLists", ckL), ("CheckpointFileNames", ckN), ("CharFileDics", chD), ("CharFileLists", chL), ("CharFileNames", chN), ("LoraFileDics", loD), ("LoraFileLists", loL), ("LoraFileNames", loN)])] [("CheckpointFileDics", ckD), ("CheckpointFileLists", ckL), ("CheckpointFileNames", ckN), ("CharFileDics", chD), ("CharFileLists", chL), ("CharFileNames", chN), ("LoraFileDics", loD), ("LoraFileLists", loL), ("LoraFileNames", loN)]
      (by simp [lookupKey])]
    rw [insertKey_head]
    rfl
  have s11 : set_nested (.dict [(ct, PyVal.dict [("CheckpointFileDics", ckD), ("CheckpointFileLists", ckL), ("CheckpointFileNames", ckN), ("CharFileDics", chD), ("CharFileLists", chL), ("CharFileNames", chN), ("LoraFileDics", loD), ("LoraFileLists", loL), ("LoraFileNames", loN), ("setupWildcard", wc)])]) wf [ct, "setupWorkflow"] =
      .ok (.dict [(ct, PyVal.dict [("CheckpointFileDics", ckD), ("CheckpointFileLists", ckL), ("CheckpointFileNames", ckN), ("CharFileDics", chD), ("CharFileLists", chL), ("CharFileNames", chN), ("LoraFileDics", loD), ("LoraFileLists", loL), ("LoraFileNames", loN), ("setupWildcard", wc), ("setupWorkflow", wf)])]) := by
    rw [set_nested_two_step ct "setupWorkflow" wf [(ct, PyVal.dict [("CheckpointFileDics", ckD), ("CheckpointFileLists", ckL), ("CheckpointFileNames", ckN), ("CharFileDics", chD), ("CharFileLists", chL), ("CharFileNames", chN), ("LoraFileDics", loD), ("LoraFileLists", loL), ("LoraFileNames", loN), ("setupWildcard", wc)])] [("CheckpointFileDics", ckD), ("CheckpointFileLists", ckL), ("CheckpointFileNames", ckN), ("CharFileDics", chD), ("CharFileLists", chL), ("CharFileNames", chN), ("LoraFileDics", loD), ("LoraFileLists", loL), ("LoraFileNames", loN), ("setupWildcard", wc)]
      (by simp [lookupKey])]
    rw [insertKey_head]
    rfl
  rw [initPrefixTypeDics]
  rw [s1, ok_bind, s2, ok_bind, s3, ok_bind, s4, ok_bind, s5, ok_bind, s6, ok_bind, s7, ok_bind, s8, ok_bind, s9, ok_bind, s10, ok_bind, s11, ok_bind]
  rfl

/-! ## Claim C2 -/

/-- C2 (corrected): (1) for every name in the category's
`CheckpointFileNames`, the built weight-table entry is, in priority
order, the `weight` field of the asset's loaded `dicCheckpointYml`
record when **truthy** (a present-but-zero weight is skipped), else the
`WeightCheckpoint.yml` value when the name is a key there, else the
configured `CheckpointWeightDefault` (150 when unconfigured); and
(2) when the table is first built during `init`, the `dicCheckpointYml`
layer has not been stored yet (it is loaded only after the weight
tables), so every init-time entry comes from the file/default layers
only — the first layer never applies at initialization, contrary to the
claim. -/
theorem weight_table_priority_and_init_order :
    (∀ (typeDics : List (String × PyVal)) (ct : String)
        (weightYml config : List (String × PyVal)) (key : String),
      key ∈ asStrList (getNestedP typeDics [ct, "CheckpointFileNames"] (.list [])) →
      lookupKey (get_weight_checkpoint typeDics ct weightYml config) key =
        some (let w := getNestedP typeDics [ct, "dicCheckpointYml", key, "weight"] .none
              if truthy w then w
              else
                match lookupKey weightYml key with
                | some y => y
                | Option.none =>
                    (lookupKey config "CheckpointWeightDefault").getD (.int 150))) ∧
    (∀ (ct : String) (ckD ckL ckN chD chL chN loD loL loN wc wf : PyVal)
        (td : List (String × PyVal)) (weightYml config : List (String × PyVal))
        (key : String),
      initPrefixTypeDics ct ckD ckL ckN chD chL chN loD loL loN wc wf = .ok (.dict td) →
      ckWeightEntry td ct weightYml config key =
        (match lookupKey weightYml key with
         | some y => y
         | Option.none => (lookupKey config "CheckpointWeightDefault").getD (.int 150))) := by
  constructor
  · intro typeDics ct weightYml config key hk
    rw [get_weight_checkpoint, foldl_insert_lookup, if_pos hk]
    rfl
  · intro ct ckD ckL ckN chD chL chN loD loL loN wc wf td weightYml config key h
    rw [initPrefixTypeDics_shape] at h
    have h1 := Except.ok.inj h
    injection h1 with h2
    subst h2
    rw [ckWeightEntry]
    have hlookup : getNestedP [(ct, PyVal.dict
        [("CheckpointFileDics", ckD), ("CheckpointFileLists", ckL),
         ("CheckpointFileNames", ckN), ("CharFileDics", chD),
         ("CharFileLists", chL), ("CharFileNames", chN),
         ("LoraFileDics", loD), ("LoraFileLists", loL),
         ("LoraFileNames", loN), ("setupWildcard", wc),
         ("setupWorkflow", wf)])]
        [ct, "dicCheckpointYml", key, "weight"] PyVal.none = PyVal.none := by
      simp [getNestedP, lookupKey]
    rw [hlookup]
    simp [truthy]

theorem weight_table_priority_and_init_order_witness :
    ("m1" ∈ asStrList (getNestedP [("X", PyVal.dict
      [("CheckpointFileNames", PyVal.list [PyVal.str "m1"]),
       ("dicCheckpointYml", PyVal.dict [("m1", PyVal.dict [("weight", PyVal.int 5)])])])]
        ["X", "CheckpointFileNames"] (.list []))) ∧
    (lookupKey (get_weight_checkpoint [("X", PyVal.dict
      [("CheckpointFileNames", PyVal.list [PyVal.str "m1"]),
       ("dicCheckpointYml", PyVal.dict [("m1", PyVal.dict [("weight", PyVal.int 5)])])])]
        "X" [("m1", PyVal.int 7)] []) "m1" =
      some (let w := getNestedP [("X", PyVal.dict
      [("CheckpointFileNames", PyVal.list [PyVal.str "m1"]),
       ("dicCheckpointYml", PyVal.dict [("m1", PyVal.dict [("weight", PyVal.int 5)])])])]
              ["X", "dicCheckpointYml", "m1", "weight"] PyVal.none
            if truthy w then w
            else
              match lookupKey [("m1", PyVal.int 7)] "m1" with
              | some y => y
              | Option.none =>
                  (lookupKey ([] : List (String × PyVal)) "CheckpointWeightDefault").getD
                    (.int 150))) ∧
    (ckWeightEntry [("X", PyVal.dict
      [("CheckpointFileDics", PyVal.none), ("CheckpointFileLists", PyVal.none),
       ("CheckpointFileNames", PyVal.list [PyVal.str "m1"]), ("CharFileDics", PyVal.none),
       ("CharFileLists", PyVal.none), ("CharFileNames", PyVal.none),
       ("LoraFileDics", PyVal.none), ("LoraFileLists", PyVal.none),
       ("LoraFileNames", PyVal.none), ("setupWildcard", PyVal.none),
       ("setupWorkflow", PyVal.none)])]
        "X" [("m1", PyVal.int 7)] [] "m1" =
      (match lookupKey [("m1", PyVal.int 7)] "m1" with
       | some y => y
       | Option.none =>
           (lookupKey ([] : List (String × PyVal)) "CheckpointWeightDefault").getD
             (.int 150))) :=
  ⟨by decide,
   weight_table_priority_and_init_order.1 _ "X" _ _ "m1" (by decide),
   weight_table_priority_and_init_order.2 "X" PyVal.none PyVal.none
     (PyVal.list [PyVal.str "m1"]) PyVal.none PyVal.none PyVal.none PyVal.none
     PyVal.none PyVal.none PyVal.none PyVal.none _ _ _ "m1" rfl⟩

/-- C2 counterexample: the asset `m1` has a merged AttributeRecord (on
disk) carrying `weight: 5`, and the category's `WeightCheckpoint.yml`
maps it to `7`.  When the table is first built during `init`, the
attribute records are not yet stored, so the init-time build yields `7`
— not the `5` the claim requires for a present `weight` field
"including when the table is first built at initialization".  (A
rebuild after the records are loaded does yield `5`, confirming the
init ordering alone defeats the first layer.) -/
theorem weight_table_init_build_uses_yml_not_attr :
    initPrefixTypeDics "X" PyVal.none PyVal.none (PyVal.list [PyVal.str "m1"])
        PyVal.none PyVal.none PyVal.none PyVal.none PyVal.none PyVal.none
        PyVal.none PyVal.none =
      .ok (.dict [("X", PyVal.dict
      [("CheckpointFileDics", PyVal.none), ("CheckpointFileLists", PyVal.none),
       ("CheckpointFileNames", PyVal.list [PyVal.str "m1"]), ("CharFileDics", PyVal.none),
       ("CharFileLists", PyVal.none), ("CharFileNames", PyVal.none),
       ("LoraFileDics", PyVal.none), ("LoraFileLists", PyVal.none),
       ("LoraFileNames", PyVal.none), ("setupWildcard", PyVal.none),
       ("setupWorkflow", PyVal.none)])]) ∧
    get_weight_checkpoint [("X", PyVal.dict
      [("CheckpointFileDics", PyVal.none), ("CheckpointFileLists", PyVal.none),
       ("CheckpointFileNames", PyVal.list [PyVal.str "m1"]), ("CharFileDics", PyVal.none),
       ("CharFileLists", PyVal.none), ("CharFileNames", PyVal.none),
       ("LoraFileDics", PyVal.none), ("LoraFileLists", PyVal.none),
       ("LoraFileNames", PyVal.none), ("setupWildcard", PyVal.none),
       ("setupWorkflow", PyVal.none)])]
        "X" [("m1", PyVal.int 7)] [] = [("m1", PyVal.int 7)] ∧
    get_weight_checkpoint [("X", PyVal.dict
      [("CheckpointFileNames", PyVal.list [PyVal.str "m1"]),
       ("dicCheckpointYml", PyVal.dict [("m1", PyVal.dict [("weight", PyVal.int 5)])])])]
        "X" [("m1", PyVal.int 7)] [] = [("m1", PyVal.int 5)] ∧
    PyVal.int 7 ≠ PyVal.int 5 :=
  ⟨rfl, rfl, rfl, by simp⟩

/-! ## C1 supporting lemmas: the weight-quota OverlayRule run -/

/-- Full run analysis of one OverlayRule with `weight: true`,
`weightMax: [2,2]`, no `per` and no `total`, over three distinct
candidates of one equal positive numeric weight whose `loras` resolve
to three distinct overlay names: every run succeeds with one or two
distinct names, and a run whose two `random.choices` picks land on the
first candidate selects exactly the first name. -/
theorem processRule_weight22_cases (k1 k2 k3 n1 n2 n3 : String) (wv : PyVal)
    (hk12 : k1 ≠ k2) (hk13 : k1 ≠ k3) (hk23 : k2 ≠ k3)
    (hn12 : n1 ≠ n2) (hn13 : n1 ≠ n3) (hn23 : n2 ≠ n3)
    (hw : pyIsNum wv = true) (hwpos : 0 < toQ wv) (o : RuleOracle) :
    (∃ s, processRule (⟨Option.none, Option.none, Option.none, some (.bool true),
      some (.list [.int 2, .int 2]), Option.none, Option.none,
      [(k1, (⟨some wv, Option.none, some (.str n1)⟩ : Cand)),
       (k2, (⟨some wv, Option.none, some (.str n2)⟩ : Cand)),
       (k3, (⟨some wv, Option.none, some (.str n3)⟩ : Cand))]⟩ : Rule) o = .ok s ∧ (s.length = 1 ∨ s.length = 2)) ∧
    (o.wPick 0 % 3 = 0 → o.wPick 1 % 3 = 0 →
      processRule (⟨Option.none, Option.none, Option.none, some (.bool true),
      some (.list [.int 2, .int 2]), Option.none, Option.none,
      [(k1, (⟨some wv, Option.none, some (.str n1)⟩ : Cand)),
       (k2, (⟨some wv, Option.none, some (.str n2)⟩ : Cand)),
       (k3, (⟨some wv, Option.none, some (.str n3)⟩ : Cand))]⟩ : Rule) o = .ok [PyVal.str n1]) := by
  have hL1 : random_min_max (.list [.int 2, .int 2]) o.wMaxI o.wMaxF = .ok (.int 2) := by
    have hbase : random_min_max (.list [.int 2, .int 2]) o.wMaxI o.wMaxF =
        .ok (.int (2 + (o.wMaxI : ℤ) % (2 - 2 + 1))) := rfl
    rw [hbase]
    norm_num
  have hL2 : random_dict_weight [(k1, (⟨some wv, Option.none, some (.str n1)⟩ : Cand)),
       (k2, (⟨some wv, Option.none, some (.str n2)⟩ : Cand)),
       (k3, (⟨some wv, Option.none, some (.str n3)⟩ : Cand))] (.int 2) [] o.wPick =
      .ok [[k1, k2, k3].getD (o.wPick 0 % 3) "", [k1, k2, k3].getD (o.wPick 1 % 3) ""] := by
    have hwd : ([(k1, (⟨some wv, Option.none, some (.str n1)⟩ : Cand)),
       (k2, (⟨some wv, Option.none, some (.str n2)⟩ : Cand)),
       (k3, (⟨some wv, Option.none, some (.str n3)⟩ : Cand))].filterMap
        fun kv => kv.2.weight.map fun w => (kv.1, w)) =
        [(k1, wv), (k2, wv), (k3, wv)] := rfl
    simp only [random_dict_weight, hwd]
    rw [if_neg (by simp), if_neg (by simp [hw]),
      if_neg (by
        simp only [List.map_cons, List.map_nil, List.sum_cons, List.sum_nil]
        intro hle
        linarith),
      if_neg (by simp [pyIsIntLike])]
    rfl
  have hred : processRule (⟨Option.none, Option.none, Option.none, some (.bool true),
      some (.list [.int 2, .int 2]), Option.none, Option.none,
      [(k1, (⟨some wv, Option.none, some (.str n1)⟩ : Cand)),
       (k2, (⟨some wv, Option.none, some (.str n2)⟩ : Cand)),
       (k3, (⟨some wv, Option.none, some (.str n3)⟩ : Cand))]⟩ : Rule) o =
      (random_min_max (.list [.int 2, .int 2]) o.wMaxI o.wMaxF >>= fun wm =>
       random_dict_weight [(k1, (⟨some wv, Option.none, some (.str n1)⟩ : Cand)),
       (k2, (⟨some wv, Option.none, some (.str n2)⟩ : Cand)),
       (k3, (⟨some wv, Option.none, some (.str n3)⟩ : Cand))] wm [] o.wPick >>= fun keys =>
       weightFold o [(k1, (⟨some wv, Option.none, some (.str n1)⟩ : Cand)),
       (k2, (⟨some wv, Option.none, some (.str n2)⟩ : Cand)),
       (k3, (⟨some wv, Option.none, some (.str n3)⟩ : Cand))] (dedupFirst keys) 0 [] >>= fun tw =>
       pure (tw.map Prod.fst)) := rfl
  have hmain : processRule (⟨Option.none, Option.none, Option.none, some (.bool true),
      some (.list [.int 2, .int 2]), Option.none, Option.none,
      [(k1, (⟨some wv, Option.none, some (.str n1)⟩ : Cand)),
       (k2, (⟨some wv, Option.none, some (.str n2)⟩ : Cand)),
       (k3, (⟨some wv, Option.none, some (.str n3)⟩ : Cand))]⟩ : Rule) o =
      (weightFold o [(k1, (⟨some wv, Option.none, some (.str n1)⟩ : Cand)),
       (k2, (⟨some wv, Option.none, some (.str n2)⟩ : Cand)),
       (k3, (⟨some wv, Option.none, some (.str n3)⟩ : Cand))]
        (dedupFirst [[k1, k2, k3].getD (o.wPick 0 % 3) "", [k1, k2, k3].getD (o.wPick 1 % 3) ""])
        0 [] >>= fun tw => pure (tw.map Prod.fst)) := by
    rw [hred, hL1, ok_bind, hL2, ok_bind]
  have hdde : ∀ x : String, dedupFirst [x, x] = [x] := by
    intro x
    simp [dedupFirst, dedupGo]
  have hddn : ∀ x y : String, x ≠ y → dedupFirst [x, y] = [x, y] := by
    intro x y hxy
    have hyx : ¬(y = x) := fun hc => hxy hc.symm
    simp [dedupFirst, dedupGo, hxy, hyx]
  have hlk1 : lookupKey [(k1, (⟨some wv, Option.none, some (.str n1)⟩ : Cand)),
       (k2, (⟨some wv, Option.none, some (.str n2)⟩ : Cand)),
       (k3, (⟨some wv, Option.none, some (.str n3)⟩ : Cand))] k1 = some (⟨some wv, Option.none, some (.str n1)⟩ : Cand) := by
    simp [lookupKey]
  have hlk2 : lookupKey [(k1, (⟨some wv, Option.none, some (.str n1)⟩ : Cand)),
       (k2, (⟨some wv, Option.none, some (.str n2)⟩ : Cand)),
       (k3, (⟨some wv, Option.none, some (.str n3)⟩ : Cand))] k2 = some (⟨some wv, Option.none, some (.str n2)⟩ : Cand) := by
    simp [lookupKey, hk12]
  have hlk3 : lookupKey [(k1, (⟨some wv, Option.none, some (.str n1)⟩ : Cand)),
       (k2, (⟨some wv, Option.none, some (.str n2)⟩ : Cand)),
       (k3, (⟨some wv, Option.none, some (.str n3)⟩ : Cand))] k3 = some (⟨some wv, Option.none, some (.str n3)⟩ : Cand) := by
    simp [lookupKey, hk13, hk23]
  have hne21 : n2 ≠ n1 := fun h => hn12 h.symm
  have hne31 : n3 ≠ n1 := fun h => hn13 h.symm
  have hne32 : n3 ≠ n2 := fun h => hn23 h.symm
  have hw1 : ∀ j acc, weightFold o [(k1, (⟨some wv, Option.none, some (.str n1)⟩ : Cand)),
       (k2, (⟨some wv, Option.none, some (.str n2)⟩ : Cand)),
       (k3, (⟨some wv, Option.none, some (.str n3)⟩ : Cand))] [k1] j acc =
      .ok (insertPy acc (.str n1) (⟨some wv, Option.none, some (.str n1)⟩ : Cand)) := by
    intro j acc
    rw [weightFold, hlk1]
    rfl
  have hw2 : ∀ j acc, weightFold o [(k1, (⟨some wv, Option.none, some (.str n1)⟩ : Cand)),
       (k2, (⟨some wv, Option.none, some (.str n2)⟩ : Cand)),
       (k3, (⟨some wv, Option.none, some (.str n3)⟩ : Cand))] [k2] j acc =
      .ok (insertPy acc (.str n2) (⟨some wv, Option.none, some (.str n2)⟩ : Cand)) := by
    intro j acc
    rw [weightFold, hlk2]
    rfl
  have hw3 : ∀ j acc, weightFold o [(k1, (⟨some wv, Option.none, some (.str n1)⟩ : Cand)),
       (k2, (⟨some wv, Option.none, some (.str n2)⟩ : Cand)),
       (k3, (⟨some wv, Option.none, some (.str n3)⟩ : Cand))] [k3] j acc =
      .ok (insertPy acc (.str n3) (⟨some wv, Option.none, some (.str n3)⟩ : Cand)) := by
    intro j acc
    rw [weightFold, hlk3]
    rfl
  have hcons : ∀ (k : String) (c : Cand) (ks : List String) (j : ℕ)
      (acc : List (PyVal × Cand)),
      lookupKey [(k1, (⟨some wv, Option.none, some (.str n1)⟩ : Cand)),
       (k2, (⟨some wv, Option.none, some (.str n2)⟩ : Cand)),
       (k3, (⟨some wv, Option.none, some (.str n3)⟩ : Cand))] k = some c →
      weightFold o [(k1, (⟨some wv, Option.none, some (.str n1)⟩ : Cand)),
       (k2, (⟨some wv, Option.none, some (.str n2)⟩ : Cand)),
       (k3, (⟨some wv, Option.none, some (.str n3)⟩ : Cand))] (k :: ks) j acc =
        (random_weight (c.loras.getD .none) (o.wLoraPick j) >>= fun lora =>
         weightFold o [(k1, (⟨some wv, Option.none, some (.str n1)⟩ : Cand)),
       (k2, (⟨some wv, Option.none, some (.str n2)⟩ : Cand)),
       (k3, (⟨some wv, Option.none, some (.str n3)⟩ : Cand))] ks (j + 1) (insertPy acc lora c)) := by
    intro k c ks j acc hl
    rw [weightFold, hl]
  have hpair : ∀ (x y : String) (cx cy : Cand) (nx ny : String),
      lookupKey [(k1, (⟨some wv, Option.none, some (.str n1)⟩ : Cand)),
       (k2, (⟨some wv, Option.none, some (.str n2)⟩ : Cand)),
       (k3, (⟨some wv, Option.none, some (.str n3)⟩ : Cand))] x = some cx → cx.loras = some (.str nx) →
      (∀ j acc, weightFold o [(k1, (⟨some wv, Option.none, some (.str n1)⟩ : Cand)),
       (k2, (⟨some wv, Option.none, some (.str n2)⟩ : Cand)),
       (k3, (⟨some wv, Option.none, some (.str n3)⟩ : Cand))] [y] j acc = .ok (insertPy acc (.str ny) cy)) →
      nx ≠ ny →
      weightFold o [(k1, (⟨some wv, Option.none, some (.str n1)⟩ : Cand)),
       (k2, (⟨some wv, Option.none, some (.str n2)⟩ : Cand)),
       (k3, (⟨some wv, Option.none, some (.str n3)⟩ : Cand))] [x, y] 0 [] = .ok [(.str nx, cx), (.str ny, cy)] := by
    intro x y cx cy nx ny hlx hlox hfy hnxy
    rw [hcons x cx [y] 0 [] hlx]
    have hrw : random_weight (cx.loras.getD .none) (o.wLoraPick 0) = .ok (.str nx) := by
      rw [hlox]
      rfl
    rw [hrw, ok_bind, hfy]
    have : insertPy (insertPy [] (.str nx) cx) (.str ny) cy = [(.str nx, cx), (.str ny, cy)] := by
      simp [insertPy, pyEq, hnxy]
    rw [this]
  have hg0 : [k1, k2, k3].getD 0 "" = k1 := rfl
  have hg1 : [k1, k2, k3].getD 1 "" = k2 := rfl
  have hg2 : [k1, k2, k3].getD 2 "" = k3 := rfl
  have ha : o.wPick 0 % 3 = 0 ∨ o.wPick 0 % 3 = 1 ∨ o.wPick 0 % 3 = 2 := by omega
  have hb : o.wPick 1 % 3 = 0 ∨ o.wPick 1 % 3 = 1 ∨ o.wPick 1 % 3 = 2 := by omega
  constructor
  · rcases ha with h | h | h <;> rcases hb with h' | h' | h' <;>
      rw [h, h'] at hmain <;>
      simp only [hg0, hg1, hg2] at hmain
    · exact ⟨[.str n1], by rw [hmain, hdde, hw1]; rfl, Or.inl rfl⟩
    · refine ⟨[.str n1, .str n2], ?_, Or.inr rfl⟩
      rw [hmain, hddn _ _ hk12, hpair k1 k2 _ _ n1 n2 hlk1 rfl hw2 hn12]
      rfl
    · refine ⟨[.str n1, .str n3], ?_, Or.inr rfl⟩
      rw [hmain, hddn _ _ hk13, hpair k1 k3 _ _ n1 n3 hlk1 rfl hw3 hn13]
      rfl
    · refine ⟨[.str n2, .str n1], ?_, Or.inr rfl⟩
      rw [hmain, hddn _ _ (fun h => hk12 h.symm), hpair k2 k1 _ _ n2 n1 hlk2 rfl hw1 hne21]
      rfl
    · exact ⟨[.str n2], by rw [hmain, hdde, hw2]; rfl, Or.inl rfl⟩
    · refine ⟨[.str n2, .str n3], ?_, Or.inr rfl⟩
      rw [hmain, hddn _ _ hk23, hpair k2 k3 _ _ n2 n3 hlk2 rfl hw3 hn23]
      rfl
    · refine ⟨[.str n3, .str n1], ?_, Or.inr rfl⟩
      rw [hmain, hddn _ _ (fun h => hk13 h.symm), hpair k3 k1 _ _ n3 n1 hlk3 rfl hw1 hne31]
      rfl
    · refine ⟨[.str n3, .str n2], ?_, Or.inr rfl⟩
      rw [hmain, hddn _ _ (fun h => hk23 h.symm), hpair k3 k2 _ _ n3 n2 hlk3 rfl hw2 hne32]
      rfl
    · exact ⟨[.str n3], by rw [hmain, hdde, hw3]; rfl, Or.inl rfl⟩
  · intro h h'
    rw [h, h'] at hmain
    simp only [hg0] at hmain
    rw [hmain, hdde, hw1]
    rfl

/-! ## Claim C1 -/

/-- C1 (corrected): for an auxiliary OverlayRule configured with
`weight: true` and `weightMax: [2,2]` over three candidates with one
equal positive weight, each resolving to a distinct overlay name, every
run that processes this rule selects **one or two** distinct overlay
names — not always exactly two: `random_dict_weight` draws with
`random.choices`, i.e. with replacement, and the set built from the two
draws collapses a duplicate to a single name (see the
counterexample). -/
theorem overlay_weight_rule_picks_one_or_two (k1 k2 k3 n1 n2 n3 : String)
    (wv : PyVal) (hk12 : k1 ≠ k2) (hk13 : k1 ≠ k3) (hk23 : k2 ≠ k3)
    (hn12 : n1 ≠ n2) (hn13 : n1 ≠ n3) (hn23 : n2 ≠ n3)
    (hw : pyIsNum wv = true) (hwpos : 0 < toQ wv) (o : RuleOracle) :
    ∃ s, processRule (⟨Option.none, Option.none, Option.none, some (.bool true),
      some (.list [.int 2, .int 2]), Option.none, Option.none,
      [(k1, (⟨some wv, Option.none, some (.str n1)⟩ : Cand)),
       (k2, (⟨some wv, Option.none, some (.str n2)⟩ : Cand)),
       (k3, (⟨some wv, Option.none, some (.str n3)⟩ : Cand))]⟩ : Rule) o = .ok s ∧ (s.length = 1 ∨ s.length = 2) :=
  (processRule_weight22_cases k1 k2 k3 n1 n2 n3 wv hk12 hk13 hk23 hn12 hn13 hn23
    hw hwpos o).1

theorem overlay_weight_rule_picks_one_or_two_witness :
    ("a" : String) ≠ "b" ∧ ("la" : String) ≠ "lb" ∧
    pyIsNum (PyVal.int 1) = true ∧ (0 : ℚ) < toQ (PyVal.int 1) ∧
    ∃ s, processRule
      (⟨Option.none, Option.none, Option.none, some (.bool true),
      some (.list [.int 2, .int 2]), Option.none, Option.none,
      [("a", (⟨some (PyVal.int 1), Option.none, some (.str "la")⟩ : Cand)),
                ("b", (⟨some (PyVal.int 1), Option.none, some (.str "lb")⟩ : Cand)),
                ("c", (⟨some (PyVal.int 1), Option.none, some (.str "lc")⟩ : Cand))]⟩ : Rule)
      ⟨0, 0, fun _ => 0, fun _ => 0, 0, 0, fun i => i, fun _ => 0, 0, 0, fun _ => 0⟩ =
        .ok s ∧ (s.length = 1 ∨ s.length = 2) :=
  ⟨by decide, by decide, rfl, by norm_num [toQ],
   overlay_weight_rule_picks_one_or_two "a" "b" "c" "la" "lb" "lc" (PyVal.int 1)
     (by decide) (by decide) (by decide) (by decide) (by decide) (by decide)
     rfl (by norm_num [toQ]) _⟩

/-- C1 counterexample: the run whose two `random.choices` picks both
land on the first candidate (realizable with probability 1/9 under
equal positive weights) selects exactly **one** distinct overlay name,
so the claim's "always selects exactly 2 distinct overlay names" is
false. -/
theorem overlay_weight_rule_single_name_run :
    processRule
      (⟨Option.none, Option.none, Option.none, some (.bool true),
      some (.list [.int 2, .int 2]), Option.none, Option.none,
      [("a", (⟨some (PyVal.int 1), Option.none, some (.str "la")⟩ : Cand)),
                ("b", (⟨some (PyVal.int 1), Option.none, some (.str "lb")⟩ : Cand)),
                ("c", (⟨some (PyVal.int 1), Option.none, some (.str "lc")⟩ : Cand))]⟩ : Rule)
      ⟨0, 0, fun _ => 0, fun _ => 0, 0, 0, fun _ => 0, fun _ => 0, 0, 0, fun _ => 0⟩ =
      .ok [PyVal.str "la"] ∧
    ¬(([PyVal.str "la"] : List PyVal).length = 2) :=
  ⟨(processRule_weight22_cases "a" "b" "c" "la" "lb" "lc" (PyVal.int 1)
      (by decide) (by decide) (by decide) (by decide) (by decide) (by decide)
      rfl (by norm_num [toQ])
      ⟨0, 0, fun _ => 0, fun _ => 0, 0, 0, fun _ => 0, fun _ => 0, 0, 0, fun _ => 0⟩).2
    rfl rfl,
   by decide⟩

/-! ## C3 supporting lemmas: the single-model scenario -/

/-- `random.choice` over a one-element list returns that element for
every pick. -/
theorem rc_single (t : String) (pick : ℕ) : random_choice [t] pick = .ok t := by
  simp [random_choice, Nat.mod_one]

/-- `random_weight_count` over a one-entry dict with a positive numeric
weight returns the single key for every oracle. -/
theorem rwc_single (t : String) (w : PyVal) (hw : pyIsNum w = true)
    (hwpos : 0 < toQ w) (f : ℕ → ℕ) :
    random_weight_count (.dict [(t, w)]) 1 [] f = .ok [t] := by
  simp only [random_weight_count]
  rw [if_neg (by simp [hw]), if_neg (by simp),
    if_neg (by
      simp only [List.map_cons, List.map_nil, List.sum_cons, List.sum_nil]
      intro hle
      linarith)]
  have hr1 : List.range 1 = [0] := rfl
  simp only [List.map_cons, List.map_nil, hr1, List.mapM_cons,
    List.mapM_nil, rc_single, ok_bind]
  rfl

/-- Base-model selection in the scenario: one category `X`, one model
`m1` of weight 1 in both the category table and the weight table, a
truthy stored path.  Every oracle yields `("X", "m1", path)`. -/
theorem scenario_checkpoint (p : PyVal) (hp : truthy p = true)
    (ckWeightPer : ℚ) (o : SelOracle) :
    checkpoint_change (.dict [("X", .int 1)]) ckWeightPer [("m1", .int 1)]
      ["m1"] [("m1", p)] o = .ok ("X", "m1", p) := by
  have hts1 : random_weight_count (.dict [("X", PyVal.int 1)]) 1 []
      (fun _ => o.typePick) = .ok ["X"] :=
    rwc_single "X" (.int 1) rfl (by norm_num [toQ]) _
  have hts2 : random_weight_count (.dict [("m1", PyVal.int 1)]) 1 []
      (fun _ => o.namePick) = .ok ["m1"] :=
    rwc_single "m1" (.int 1) rfl (by norm_num [toQ]) _
  have hpath : (lookupKey [("m1", p)] "m1").getD PyVal.none = p := rfl
  by_cases hc : ckWeightPer > o.rWeight
  · simp only [checkpoint_change, hts1, ok_bind, pure_bind, if_pos hc, hts2,
      hpath, hp]
    rfl
  · simp only [checkpoint_change, hts1, ok_bind, pure_bind, if_neg hc,
      rc_single, hpath, hp]
    rfl

/-- Character selection in the scenario: no discovered character
assets.  The result is the sentinel exactly when the `noCharPer` coin
fires, and Python `None` otherwise. -/
theorem scenario_char (noCharPer charWeightPer : ℚ) (co : CharOracle) :
    char_change noCharPer charWeightPer [] [] [] [] co =
      .ok (if noCharPer > co.rNoChar then (.str "noChar", PyVal.none, true)
           else (PyVal.none, PyVal.none, false)) := by
  by_cases hc : noCharPer > co.rNoChar
  · simp only [char_change]
    rw [if_pos hc, if_pos hc]
    rfl
  · by_cases hc2 : charWeightPer > co.rWeight
    · simp only [char_change]
      rw [if_neg hc, if_neg hc, if_pos hc2]
      rfl
    · simp only [char_change]
      rw [if_neg hc, if_neg hc, if_neg hc2]
      rfl

/-- Overlay selection in the scenario: no overlay rules, so the
selected set is empty whichever way the `noLoraPer` coin lands. -/
theorem scenario_lora (noLoraPer rNoLora : ℚ) (os : ℕ → RuleOracle) :
    lora_change [] noLoraPer rNoLora os = .ok [] := by
  by_cases hc : noLoraPer > rNoLora
  · simp only [lora_change]
    rw [if_pos hc]
  · simp only [lora_change]
    rw [if_neg hc]
    rfl

/-! ## Claim C3 -/

/-- C3 (corrected): under a configuration with one category `X`
containing exactly one base model `m1` (weight 1), no discovered
character assets and no overlay rules, every iteration of selection
yields base model `m1` (with its stored path) and an empty overlay set;
the character name, however, is the sentinel `'noChar'` exactly when
the `noCharPer` coin fires, and Python `None` otherwise — not the
sentinel on every iteration. -/
theorem single_model_scenario (p : PyVal) (hp : truthy p = true)
    (ckWeightPer noCharPer charWeightPer noLoraPer rNoLora : ℚ)
    (o : SelOracle) (co : CharOracle) (os : ℕ → RuleOracle) :
    checkpoint_change (.dict [("X", .int 1)]) ckWeightPer [("m1", .int 1)]
      ["m1"] [("m1", p)] o = .ok ("X", "m1", p) ∧
    char_change noCharPer charWeightPer [] [] [] [] co =
      .ok (if noCharPer > co.rNoChar then (.str "noChar", PyVal.none, true)
           else (PyVal.none, PyVal.none, false)) ∧
    lora_change [] noLoraPer rNoLora os = .ok [] :=
  ⟨scenario_checkpoint p hp ckWeightPer o,
   scenario_char noCharPer charWeightPer co,
   scenario_lora noLoraPer rNoLora os⟩

theorem single_model_scenario_witness :
    truthy (PyVal.str "/ck/m1.safetensors") = true ∧
    (checkpoint_change (.dict [("X", .int 1)]) (1/2) [("m1", .int 1)]
      ["m1"] [("m1", .str "/ck/m1.safetensors")] ⟨0, 0, 0, 0, 0⟩ =
      .ok ("X", "m1", .str "/ck/m1.safetensors") ∧
    char_change (1/2) (1/2) [] [] [] [] ⟨0, 0, 0, 0, 0⟩ =
      .ok (if (1/2 : ℚ) > (⟨0, 0, 0, 0, 0⟩ : CharOracle).rNoChar
           then (.str "noChar", PyVal.none, true)
           else (PyVal.none, PyVal.none, false)) ∧
    lora_change [] (1/2) 0 (fun _ => ⟨0, 0, fun _ => 0, fun _ => 0, 0, 0,
      fun _ => 0, fun _ => 0, 0, 0, fun _ => 0⟩) = .ok []) :=
  ⟨rfl, single_model_scenario (.str "/ck/m1.safetensors") rfl
    (1/2) (1/2) (1/2) (1/2) 0 ⟨0, 0, 0, 0, 0⟩ ⟨0, 0, 0, 0, 0⟩ _⟩

/-- C3 counterexample: an iteration whose `noCharPer` roll is 7/10
(against the default threshold 1/2, a realizable `random.random()`
value) does not fire the coin, and with no discovered character assets
`char_change` sets the character name to Python `None` — not to the
sentinel `'noChar'` the claim promises on every iteration. -/
theorem single_model_scenario_char_is_none :
    char_change (1/2) (1/2) [] [] [] [] ⟨7/10, 0, 0, 0, 0⟩ =
      .ok (PyVal.none, PyVal.none, false) ∧
    PyVal.none ≠ PyVal.str "noChar" := by
  constructor
  · have h := scenario_char (1/2) (1/2) ⟨7/10, 0, 0, 0, 0⟩
    have hc : ¬((1/2 : ℚ) > (⟨7/10, 0, 0, 0, 0⟩ : CharOracle).rNoChar) := by
      show ¬((1/2 : ℚ) > 7/10)
      norm_num
    rw [h, if_neg hc]
  · exact fun h => nomatch h

end ComfySpec
